import Mathlib

/-!
# LineFollowerOS: the Arduino line-follower controller

A shallow embedding of `firmware/arduino/LineFollower.cpp` (class `LineFollower`,
declared in `LineFollower.h`) and the properties of its control algorithm:
position estimation from the sensor snapshot, the PID update with anti-windup,
and the differential-drive speed mapping.

Modelling conventions.

* C++ `int` is the 32-bit two's complement integer: a value is an `Int` between
  `INT_MIN` and `INT_MAX`, and the result of `+`, `-`, `*` and unary `-` is reduced
  into that range modulo 2^32 (`wrap`), which is what the machine instruction
  leaves when the exact result does not fit.  `/` on `int` is `Int.tdiv`
  (truncation toward zero).
* C++ `float` is IEEE binary32: a finite value is the rational it denotes, every
  product, sum and conversion from `int` is rounded to the nearest binary32 value,
  ties to even (`roundFloat`), and a result beyond the largest finite value is no
  number any more (`none`).  Converting to `int` discards the fractional part
  (`floatToInt`).
* The two arrays of the object (`sensorPins`, `sensorValues`) are functions from
  the index to the cell, read only at indices below `numSensors`.
* The hardware calls are explicit: `digitalRead` is a function from a pin to the
  level read on it, and the `analogWrite` calls of `setMotorSpeeds` are returned
  as the list of `(pin, duty)` pairs in program order.
-/

namespace LineFollowerOS

/-! ## Arduino.h -/

/-- Modelled from the spec: the level `HIGH` of Arduino.h (not among the sources), the
reading of a sensor that is over the line ("snapshot[i] is true"); Arduino defines it as 1. -/
def HIGH : Int := 1

/-- Modelled from the spec: the level `LOW` of Arduino.h (not among the sources), the
reading of a sensor that is not over the line; Arduino defines it as 0. -/
def LOW : Int := 0

/-- Modelled from the spec: the `constrain(amt, low, high)` macro of Arduino.h (not among
the sources), the "clamp" of the spec:
`((amt) < (low) ? (low) : ((amt) > (high) ? (high) : (amt)))`. -/
def constrain (amt low high : Int) : Int :=
  if amt < low then low else if amt > high then high else amt

/-! ## The arithmetic of `int` -/

/-- The least value of `int`. -/
def INT_MIN : Int := -2147483648

/-- The greatest value of `int`. -/
def INT_MAX : Int := 2147483647

/-- The value of `int` that an arithmetic instruction leaves for the exact result `x`:
the representative of `x` modulo 2^32 between `INT_MIN` and `INT_MAX`. -/
def wrap (x : Int) : Int :=
  (x + 2147483648) % 4294967296 - 2147483648

/-! ## The arithmetic of `float` -/

/-- The integer nearest to a rational, the even one of the two when it lies halfway. -/
def roundHalfEven (q : ℚ) : Int :=
  if q - (⌊q⌋ : ℚ) < 1 / 2 then ⌊q⌋
  else if 1 / 2 < q - (⌊q⌋ : ℚ) then ⌊q⌋ + 1
  else if ⌊q⌋ % 2 = 0 then ⌊q⌋ else ⌊q⌋ + 1

/-- The exponent of the spacing of the binary32 values around `q`: 24 significant bits
below the leading bit of `q`, and never below the spacing 2^-149 of the subnormal
values. -/
def ulpExponent (q : ℚ) : Int :=
  max (Int.log 2 |q|) (-126) - 23

/-- The binary32 value of the exact result `q` of a `float` operation: `q` rounded to the
nearest multiple of the spacing, ties to even; `none` when the rounded value is beyond
the largest finite binary32 value (the operation yields an infinity). -/
def roundFloat (q : ℚ) : Option ℚ :=
  if |(roundHalfEven (q / 2 ^ ulpExponent q) : ℚ) * 2 ^ ulpExponent q| < 2 ^ (128 : Nat) then
    some ((roundHalfEven (q / 2 ^ ulpExponent q) : ℚ) * 2 ^ ulpExponent q)
  else none

/-- The product of two `float` values; an operand that is no number gives no number. -/
def fmul (a b : Option ℚ) : Option ℚ :=
  match a, b with
  | some x, some y => roundFloat (x * y)
  | _, _ => none

/-- The sum of two `float` values; an operand that is no number gives no number. -/
def fadd (a b : Option ℚ) : Option ℚ :=
  match a, b with
  | some x, some y => roundFloat (x + y)
  | _, _ => none

/-- Conversion of an `int` to `float` (the usual arithmetic conversion of the `int`
operand of a mixed product). -/
def intToFloat (n : Int) : Option ℚ :=
  roundFloat (n : ℚ)

/-- Conversion of a `float` to `int`: the fractional part is discarded (truncation toward
zero).  C++ defines no result when the truncated value does not fit `int` or the operand
is no number; the embedding returns `INT_MIN` there, as the x86 conversion instruction
does. -/
def floatToInt : Option ℚ → Int
  | none => INT_MIN
  | some q =>
    if INT_MIN ≤ Int.tdiv q.num q.den ∧ Int.tdiv q.num q.den ≤ INT_MAX then
      Int.tdiv q.num q.den
    else INT_MIN

/-! ## The object -/

/-- The fields of `class LineFollower` (LineFollower.h).  The `int` fields hold values of
`int`, the `float` fields `Kp`, `Ki`, `Kd` the rationals that finite binary32 values
denote. -/
structure LineFollower where
  numSensors : Nat
  sensorPins : Nat → Int
  sensorValues : Nat → Int
  motorLeftPin1 : Int
  motorLeftPin2 : Int
  motorRightPin1 : Int
  motorRightPin2 : Int
  Kp : ℚ
  Ki : ℚ
  Kd : ℚ
  lastError : Int
  integral : Int
  baseSpeed : Int
  maxSpeed : Int

namespace LineFollower

/-- The constructor `LineFollower::LineFollower`.  `new int[numSensors]` leaves the cells
of `sensorValues` indeterminate: their initial contents are the parameter `fresh`. -/
def new (numSensors : Nat) (sensorPins : Nat → Int) (mL1 mL2 mR1 mR2 : Int)
    (fresh : Nat → Int) : LineFollower :=
  { numSensors := numSensors
    sensorPins := sensorPins
    sensorValues := fresh
    motorLeftPin1 := mL1
    motorLeftPin2 := mL2
    motorRightPin1 := mR1
    motorRightPin2 := mR2
    lastError := 0
    integral := 0
    baseSpeed := 150
    maxSpeed := 200
    Kp := 1
    Ki := 0
    Kd := 1 / 2 }

/-- The method `LineFollower::setPID`. -/
def setPID (r : LineFollower) (kp ki kd : ℚ) : LineFollower :=
  { r with Kp := kp, Ki := ki, Kd := kd }

/-- The method `LineFollower::setSpeed`. -/
def setSpeed (r : LineFollower) (base max : Int) : LineFollower :=
  { r with baseSpeed := base, maxSpeed := max }

/-- The method `LineFollower::readSensors`: cell `i` of `sensorValues`, for
`i < numSensors`, receives `digitalRead(sensorPins[i])`. -/
def readSensors (r : LineFollower) (digitalRead : Int → Int) : LineFollower :=
  { r with
    sensorValues := fun i =>
      if i < r.numSensors then digitalRead (r.sensorPins i) else r.sensorValues i }

/-- The `for` loop of `calculatePosition`: the pair `(sum, count)` after the iterations
`i = 0, ..., k - 1`. -/
def positionLoop (sensorValues : Nat → Int) : Nat → Int × Int
  | 0 => (0, 0)
  | k + 1 =>
    let sc := positionLoop sensorValues k
    if sensorValues k = HIGH then (wrap (sc.1 + wrap ((k : Int) * 1000)), wrap (sc.2 + 1))
    else sc

/-- The method `LineFollower::calculatePosition`. -/
def calculatePosition (r : LineFollower) : Int :=
  let sc := positionLoop r.sensorValues r.numSensors
  if sc.2 = 0 then -1
  else wrap (Int.tdiv sc.1 sc.2 - wrap (wrap ((r.numSensors : Int) - 1) * 500))

/-- The right-hand side of the last assignment of `calculatePID`,
`(Kp * error) + (Ki * integral) + (Kd * derivative)` converted to `int`: each `int`
operand is converted to `float`, the three products and the two sums (from left to
right) are `float` operations. -/
def pidCorrection (Kp Ki Kd : ℚ) (error integral derivative : Int) : Int :=
  floatToInt
    (fadd
      (fadd (fmul (some Kp) (intToFloat error)) (fmul (some Ki) (intToFloat integral)))
      (fmul (some Kd) (intToFloat derivative)))

/-- The method `LineFollower::calculatePID`: the returned correction and the object
after the call. -/
def calculatePID (r : LineFollower) (position : Int) : Int × LineFollower :=
  if position = -1 then (0, r)
  else
    let error := position
    let integral1 := wrap (r.integral + error)
    let derivative := wrap (error - r.lastError)
    let integral2 := constrain integral1 (-1000) 1000
    let correction := pidCorrection r.Kp r.Ki r.Kd error integral2 derivative
    (correction, { r with lastError := error, integral := integral2 })

/-- The method `LineFollower::setMotorSpeeds`: the `analogWrite(pin, duty)` calls it
makes, in order. -/
def setMotorSpeeds (r : LineFollower) (leftSpeed rightSpeed : Int) : List (Int × Int) :=
  (if leftSpeed ≥ 0 then [(r.motorLeftPin1, leftSpeed), (r.motorLeftPin2, 0)]
   else [(r.motorLeftPin1, 0), (r.motorLeftPin2, wrap (-leftSpeed))]) ++
  (if rightSpeed ≥ 0 then [(r.motorRightPin1, rightSpeed), (r.motorRightPin2, 0)]
   else [(r.motorRightPin1, 0), (r.motorRightPin2, wrap (-rightSpeed))])

/-- The two speeds `run` computes from the correction (the two `constrain` lines of
`LineFollower::run`): `(leftSpeed, rightSpeed)`. -/
def runSpeeds (r : LineFollower) (correction : Int) : Int × Int :=
  (constrain (wrap (r.baseSpeed + correction)) 0 r.maxSpeed,
   constrain (wrap (r.baseSpeed - correction)) 0 r.maxSpeed)

/-- The method `LineFollower::run`: the object after the cycle and the `analogWrite`
calls made by its `setMotorSpeeds(leftSpeed, rightSpeed)`. -/
def run (r : LineFollower) (digitalRead : Int → Int) : LineFollower × List (Int × Int) :=
  let r1 := readSensors r digitalRead
  let position := calculatePosition r1
  let cr := calculatePID r1 position
  let speeds := runSpeeds cr.2 cr.1
  (cr.2, setMotorSpeeds cr.2 speeds.1 speeds.2)

/-- The method `LineFollower::stop`. -/
def stop (r : LineFollower) : LineFollower × List (Int × Int) :=
  (r, setMotorSpeeds r 0 0)

end LineFollower

/-! ## Vocabulary of the properties -/

/-- The exact result `x` of an `int` operation is a value of `int`: the operation does
not overflow. -/
def fitsInt (x : Int) : Prop :=
  INT_MIN ≤ x ∧ x ≤ INT_MAX

/-- The rational `q` is a binary32 value: rounding leaves it unchanged. -/
def isFloat (q : ℚ) : Prop :=
  roundFloat q = some q

/-- The set of the indices below `n` whose sensor reads `HIGH` (the set `active` of the
position estimator). -/
def activeIndices (sensorValues : Nat → Int) (n : Nat) : Finset Nat :=
  (Finset.range n).filter (fun i => sensorValues i = HIGH)

/-- A controller in an arbitrary state whose array has `n` sensors with the given
readings: the fields the position estimate does not read are fixed to the constructor's
values. -/
def withSnapshot (n : Nat) (sensorValues : Nat → Int) : LineFollower :=
  LineFollower.new n (fun i => (i : Int)) 5 6 9 10 sensorValues

/-- The snapshot whose readings are the entries of a list, sensor 0 first. -/
def ofList (levels : List Int) : Nat → Int := fun i => levels.getD i LOW

/-- The snapshot of an array in which no sensor is over the line. -/
def allLow : Nat → Int := fun _ => LOW

/-- The snapshot of an array in which every sensor is over the line. -/
def allHigh : Nat → Int := fun _ => HIGH

/-- The snapshot in which exactly sensor `j` is over the line. -/
def onlySensor (j : Nat) : Nat → Int := fun i => if i = j then HIGH else LOW

/-- The snapshot in which every sensor but sensor `j` is over the line. -/
def allBut (j : Nat) : Nat → Int := fun i => if i = j then LOW else HIGH

/-- The object after `k` consecutive calls `calculatePID(e)`. -/
def repeatPID (r : LineFollower) (e : Int) : Nat → LineFollower
  | 0 => r
  | k + 1 => (LineFollower.calculatePID (repeatPID r e k) e).2

/-- A freshly constructed controller of `n` sensors (pins 2, 3, ... for the sensors and
5, 6, 9, 10 for the motors), all cells of its new array holding 0. -/
def freshController (n : Nat) : LineFollower :=
  LineFollower.new n (fun i => (i : Int) + 2) 5 6 9 10 (fun _ => 0)

/-- A controller with gains Kp = 0, Ki = 1, Kd = 0 whose integral has reached 998 and
whose last error is 3: a state on which the pre-call, the unclamped and the clamped
integral give three different corrections. -/
def integralProbe : LineFollower :=
  { LineFollower.setPID (freshController 5) 0 1 0 with lastError := 3, integral := 998 }

/-- The hardware seen by a controller built by `freshController`, whose sensor `i` is on
pin `i + 2`: `digitalRead` returns on that pin the reading `levels i`. -/
def readingOf (levels : Nat → Int) : Int → Int := fun pin => levels (pin - 2).toNat

/-- The public operations that a caller can apply to the object, with their arguments;
the argument of `run` is the hardware read during the cycle. -/
inductive Operation where
  | setPID (kp ki kd : ℚ)
  | setSpeed (base max : Int)
  | calculatePID (position : Int)
  | run (digitalRead : Int → Int)
  | stop

/-- The object after one public operation. -/
def Operation.apply (r : LineFollower) : Operation → LineFollower
  | Operation.setPID kp ki kd => LineFollower.setPID r kp ki kd
  | Operation.setSpeed base max => LineFollower.setSpeed r base max
  | Operation.calculatePID position => (LineFollower.calculatePID r position).2
  | Operation.run digitalRead => (LineFollower.run r digitalRead).1
  | Operation.stop => (LineFollower.stop r).1

/-- The object after a finite sequence of public operations, applied from left to
right. -/
def applyAll (r : LineFollower) (ops : List Operation) : LineFollower :=
  ops.foldl Operation.apply r

open LineFollower

/-! ## Arithmetic of `int` -/

theorem wrap_of_fits (x : Int) (h : fitsInt x) : wrap x = x := by
  simp only [fitsInt, INT_MIN, INT_MAX] at h
  unfold wrap
  omega

theorem wrap_fits (x : Int) : fitsInt (wrap x) := by
  simp only [fitsInt, INT_MIN, INT_MAX]
  unfold wrap
  omega

/-! ## Line lost -/

theorem positionLoop_count_zero (v : Nat → Int) (n : Nat)
    (h : ∀ i, i < n → v i ≠ HIGH) : positionLoop v n = (0, 0) := by
  induction n with
  | zero => rfl
  | succ k ih =>
    have hk : v k ≠ HIGH := h k (Nat.lt_succ_self k)
    have ih2 := ih (fun i hi => h i (Nat.lt_succ_of_lt hi))
    simp [positionLoop, hk, ih2]

/-- C1: when no sensor of the array reads HIGH, `calculatePosition` returns -1; and for
every object state (any `lastError`, `integral`, gains), `calculatePID(-1)` returns 0
and leaves the object, in particular `lastError` and `integral`, as it was. -/
theorem line_lost_freezes (r : LineFollower)
    (hlow : ∀ i, i < r.numSensors → r.sensorValues i ≠ HIGH) :
    calculatePosition r = -1 ∧
    (∀ s : LineFollower,
      (calculatePID s (-1)).1 = 0 ∧
      (calculatePID s (-1)).2.lastError = s.lastError ∧
      (calculatePID s (-1)).2.integral = s.integral ∧
      (calculatePID s (-1)).2 = s) ∧
    calculatePID r (calculatePosition r) = (0, r) := by
  have hpos : calculatePosition r = -1 := by
    simp [calculatePosition, positionLoop_count_zero r.sensorValues r.numSensors hlow]
  refine ⟨hpos, ?_, ?_⟩
  · intro s
    simp [calculatePID]
  · rw [hpos]
    simp [calculatePID]

theorem line_lost_freezes_witness :
    calculatePosition (withSnapshot 5 allLow) = -1 ∧
    calculatePID (withSnapshot 5 allLow) (calculatePosition (withSnapshot 5 allLow))
      = (0, withSnapshot 5 allLow) :=
  have h := line_lost_freezes (withSnapshot 5 allLow)
    (by intro i _; simp [withSnapshot, LineFollower.new, allLow, LOW, HIGH])
  ⟨h.1, h.2.2⟩

/-! ## The position estimate -/

theorem activeIndices_succ (v : Nat → Int) (k : Nat) :
    activeIndices v (k + 1) =
      if v k = HIGH then insert k (activeIndices v k) else activeIndices v k := by
  unfold activeIndices
  rw [Finset.range_succ, Finset.filter_insert]

theorem not_mem_activeIndices_self (v : Nat → Int) (k : Nat) : k ∉ activeIndices v k := by
  simp [activeIndices]

/-- The loop leaves in `sum` and `count` the values of `int` of the exact sum and number
of the active indices, for arrays of any size. -/
theorem positionLoop_eq (v : Nat → Int) (n : Nat) :
    positionLoop v n =
      (wrap (1000 * ∑ i ∈ activeIndices v n, (i : Int)),
       wrap ((activeIndices v n).card : Int)) := by
  induction n with
  | zero => simp [positionLoop, activeIndices, wrap]
  | succ k ih =>
    rw [positionLoop, ih, activeIndices_succ]
    by_cases hk : v k = HIGH
    · simp only [hk, if_true]
      rw [Finset.sum_insert (not_mem_activeIndices_self v k),
        Finset.card_insert_of_not_mem (not_mem_activeIndices_self v k)]
      generalize ∑ i ∈ activeIndices v k, (i : Int) = S
      generalize (activeIndices v k).card = c
      ext
      · simp only [wrap]
        omega
      · simp only [wrap]
        push_cast
        omega
    · simp only [hk, if_false]

theorem calculatePosition_eq (r : LineFollower) :
    calculatePosition r =
      if wrap ((activeIndices r.sensorValues r.numSensors).card : Int) = 0 then -1
      else
        wrap (Int.tdiv
            (wrap (1000 * ∑ i ∈ activeIndices r.sensorValues r.numSensors, (i : Int)))
            (wrap ((activeIndices r.sensorValues r.numSensors).card : Int))
          - wrap (wrap ((r.numSensors : Int) - 1) * 500)) := by
  simp only [calculatePosition, positionLoop_eq]

theorem activeIndices_card_pos (v : Nat → Int) (n : Nat)
    (h : ∃ i, i < n ∧ v i = HIGH) : 0 < (activeIndices v n).card := by
  obtain ⟨i, hi, hv⟩ := h
  apply Finset.card_pos.mpr
  exact ⟨i, by simp [activeIndices, hi, hv]⟩

theorem activeIndices_card_le (v : Nat → Int) (n : Nat) : (activeIndices v n).card ≤ n := by
  unfold activeIndices
  calc ((Finset.range n).filter (fun i => v i = HIGH)).card
      ≤ (Finset.range n).card := Finset.card_filter_le _ _
    _ = n := Finset.card_range n

theorem activeIndices_sum_nonneg (v : Nat → Int) (n : Nat) :
    0 ≤ ∑ i ∈ activeIndices v n, (i : Int) :=
  Finset.sum_nonneg (fun i _ => Int.ofNat_nonneg i)

theorem activeIndices_sum_le (v : Nat → Int) (n : Nat) :
    ∑ i ∈ activeIndices v n, (i : Int) ≤ ((activeIndices v n).card : Int) * ((n : Int) - 1) := by
  have h : ∀ i ∈ activeIndices v n, (i : Int) ≤ (n : Int) - 1 := by
    intro i hi
    have : i < n := by
      simp [activeIndices] at hi
      exact hi.1
    omega
  have := Finset.sum_le_card_nsmul (activeIndices v n) (fun i => (i : Int)) ((n : Int) - 1) h
  simpa using this

theorem sum_range_int (n : Nat) : 2 * ∑ i ∈ Finset.range n, (i : Int) = (n : Int) * ((n : Int) - 1) := by
  induction n with
  | zero => simp
  | succ k ih =>
    rw [Finset.sum_range_succ, mul_add, ih]
    push_cast
    ring

/-- With at most 2072 sensors the sum of the loop stays below 2^31: the sum of all the
indices, times 1000, is at most 1000 * 2072 * 2071 / 2 = 2145556000. -/
theorem activeIndices_sum_small (v : Nat → Int) (n : Nat) (hn : n ≤ 2072) :
    1000 * ∑ i ∈ activeIndices v n, (i : Int) ≤ 2145556000 := by
  have hsub : ∑ i ∈ activeIndices v n, (i : Int) ≤ ∑ i ∈ Finset.range n, (i : Int) := by
    apply Finset.sum_le_sum_of_subset_of_nonneg
    · exact Finset.filter_subset _ _
    · intro i _ _
      exact Int.ofNat_nonneg i
  have hg := sum_range_int n
  have hn2 : (n : Int) ≤ 2072 := by exact_mod_cast hn
  have hn0 : (0 : Int) ≤ (n : Int) := Int.ofNat_nonneg n
  have hprod : (n : Int) * ((n : Int) - 1) ≤ 2072 * 2071 := by nlinarith
  omega

/-- The position in the line-present case for arrays of at most 2072 sensors, where no
operation overflows; the truncating division is written as the floor division it
coincides with on the non-negative `sum` and positive `count`. -/
theorem calculatePosition_of_active (r : LineFollower) (hN : r.numSensors ≤ 2072)
    (h : ∃ i, i < r.numSensors ∧ r.sensorValues i = HIGH) :
    calculatePosition r =
      (1000 * ∑ i ∈ activeIndices r.sensorValues r.numSensors, (i : Int)) /
          ((activeIndices r.sensorValues r.numSensors).card : Int)
        - ((r.numSensors : Int) - 1) * 500 := by
  have hc := activeIndices_card_pos r.sensorValues r.numSensors h
  have hcn := activeIndices_card_le r.sensorValues r.numSensors
  have hs := activeIndices_sum_nonneg r.sensorValues r.numSensors
  have hsm := activeIndices_sum_small r.sensorValues r.numSensors hN
  rw [calculatePosition_eq]
  generalize (activeIndices r.sensorValues r.numSensors).card = c at hc hcn
  generalize ∑ i ∈ activeIndices r.sensorValues r.numSensors, (i : Int) = S at hs hsm
  have hc1 : wrap (c : Int) = (c : Int) :=
    wrap_of_fits _ (by simp only [fitsInt, INT_MIN, INT_MAX]; omega)
  have hS1 : wrap (1000 * S) = 1000 * S :=
    wrap_of_fits _ (by simp only [fitsInt, INT_MIN, INT_MAX]; omega)
  have hn1 : wrap (wrap ((r.numSensors : Int) - 1) * 500) = ((r.numSensors : Int) - 1) * 500 := by
    unfold wrap
    omega
  have hc0 : (c : Int) ≠ 0 := by omega
  rw [hc1, hS1, hn1, if_neg hc0, Int.tdiv_eq_ediv (by omega) (by omega)]
  have hq0 : 0 ≤ 1000 * S / (c : Int) := Int.ediv_nonneg (by omega) (by omega)
  have hq1 : 1000 * S / (c : Int) ≤ 1000 * S :=
    Int.ediv_le_self _ (by omega)
  apply wrap_of_fits
  simp only [fitsInt, INT_MIN, INT_MAX]
  omega

theorem position_bounds (r : LineFollower) (hN : r.numSensors ≤ 2072)
    (h : ∃ i, i < r.numSensors ∧ r.sensorValues i = HIGH) :
    -(((r.numSensors : Int) - 1) * 500) ≤ calculatePosition r ∧
    calculatePosition r ≤ ((r.numSensors : Int) - 1) * 500 := by
  have hc := activeIndices_card_pos r.sensorValues r.numSensors h
  have hs := activeIndices_sum_nonneg r.sensorValues r.numSensors
  have hle := activeIndices_sum_le r.sensorValues r.numSensors
  rw [calculatePosition_of_active r hN h]
  have hc2 : (0 : Int) < ((activeIndices r.sensorValues r.numSensors).card : Int) := by
    exact_mod_cast hc
  have h1 : 0 ≤ (1000 * ∑ i ∈ activeIndices r.sensorValues r.numSensors, (i : Int)) /
          ((activeIndices r.sensorValues r.numSensors).card : Int) :=
    Int.ediv_nonneg (by omega) (by omega)
  have h2 : (1000 * ∑ i ∈ activeIndices r.sensorValues r.numSensors, (i : Int)) /
          ((activeIndices r.sensorValues r.numSensors).card : Int)
        ≤ 1000 * ((r.numSensors : Int) - 1) := by
    apply Int.ediv_le_of_le_mul hc2
    nlinarith
  constructor <;> omega

theorem position_ne_sentinel (r : LineFollower) (hN : r.numSensors ≤ 501)
    (h : ∃ i, i < r.numSensors ∧ r.sensorValues i = HIGH) :
    calculatePosition r ≠ -1 := by
  have hc := activeIndices_card_pos r.sensorValues r.numSensors h
  have hcn := activeIndices_card_le r.sensorValues r.numSensors
  have hs := activeIndices_sum_nonneg r.sensorValues r.numSensors
  rw [calculatePosition_of_active r (by omega) h]
  generalize (activeIndices r.sensorValues r.numSensors).card = c at hc hcn
  generalize ∑ i ∈ activeIndices r.sensorValues r.numSensors, (i : Int) = S at hs
  intro heq
  have hc2 : (0 : Int) < (c : Int) := by exact_mod_cast hc
  have hq : 1000 * S / (c : Int) = ((r.numSensors : Int) - 1) * 500 - 1 := by omega
  have h1 : 1000 * S / (c : Int) * (c : Int) ≤ 1000 * S := Int.ediv_mul_le _ (by omega)
  have h2 : 1000 * S < (1000 * S / (c : Int) + 1) * (c : Int) :=
    Int.lt_ediv_add_one_mul_self _ hc2
  rw [hq] at h1 h2
  have h3 : (((r.numSensors : Int) - 1) * 500 - 1) * (c : Int)
      = 500 * ((c : Int) * ((r.numSensors : Int) - 1)) - (c : Int) := by ring
  have h4 : (((r.numSensors : Int) - 1) * 500 - 1 + 1) * (c : Int)
      = 500 * ((c : Int) * ((r.numSensors : Int) - 1)) := by ring
  rw [h3] at h1
  rw [h4] at h2
  have hc500 : c = 500 ∨ c = 501 := by
    generalize (c : Int) * ((r.numSensors : Int) - 1) = P at h1 h2
    omega
  rcases hc500 with hc5 | hc5
  · subst hc5
    push_cast at h1 h2
    omega
  · subst hc5
    push_cast at h1 h2
    omega

theorem activeIndices_single (v : Nat → Int) (n j : Nat) (hj : j < n) (hv : v j = HIGH)
    (hrest : ∀ i, i < n → i ≠ j → v i ≠ HIGH) : activeIndices v n = {j} := by
  ext i
  simp only [activeIndices, Finset.mem_filter, Finset.mem_range, Finset.mem_singleton]
  constructor
  · rintro ⟨hi, hvi⟩
    by_contra hne
    exact hrest i hi hne hvi
  · rintro rfl
    exact ⟨hj, hv⟩

theorem calculatePosition_single (r : LineFollower) (hN : r.numSensors ≤ 2072) (j : Nat)
    (hj : j < r.numSensors) (hv : r.sensorValues j = HIGH)
    (hrest : ∀ i, i < r.numSensors → i ≠ j → r.sensorValues i ≠ HIGH) :
    calculatePosition r = 1000 * (j : Int) - ((r.numSensors : Int) - 1) * 500 := by
  rw [calculatePosition_of_active r hN ⟨j, hj, hv⟩,
    activeIndices_single r.sensorValues r.numSensors j hj hv hrest]
  simp

/-- The centre sensor alone, for an array of any odd size: the mean 1000 * (N-1)/2 and the
offset (N-1) * 500 are the same value of `int`, overflown or not. -/
theorem calculatePosition_centre (r : LineFollower) (hodd : r.numSensors % 2 = 1)
    (hv : r.sensorValues ((r.numSensors - 1) / 2) = HIGH)
    (hrest : ∀ i, i < r.numSensors → i ≠ (r.numSensors - 1) / 2 → r.sensorValues i ≠ HIGH) :
    calculatePosition r = 0 := by
  rw [calculatePosition_eq,
    activeIndices_single r.sensorValues r.numSensors ((r.numSensors - 1) / 2) (by omega)
      hv hrest]
  simp only [Finset.sum_singleton, Finset.card_singleton, Nat.cast_one]
  have h1 : wrap 1 = 1 := by decide
  rw [h1, if_neg (by decide), Int.tdiv_one]
  unfold wrap
  omega

theorem activeIndices_sum_symmetric (v : Nat → Int) (n : Nat)
    (hsym : ∀ i, i < n → (v i = HIGH ↔ v (n - 1 - i) = HIGH)) :
    2 * ∑ i ∈ activeIndices v n, (i : Int)
      = ((activeIndices v n).card : Int) * ((n : Int) - 1) := by
  have hmem : ∀ i, i ∈ activeIndices v n ↔ i < n ∧ v i = HIGH := by
    intro i
    simp [activeIndices]
  have hrefl : ∑ i ∈ activeIndices v n, (i : Int)
      = ∑ i ∈ activeIndices v n, ((n : Int) - 1 - (i : Int)) := by
    apply Finset.sum_bij' (fun i _ => n - 1 - i) (fun i _ => n - 1 - i)
    · intro i hi
      have h := (hmem i).mp hi
      exact (hmem _).mpr ⟨by omega, (hsym i h.1).mp h.2⟩
    · intro i hi
      have h := (hmem i).mp hi
      exact (hmem _).mpr ⟨by omega, (hsym i h.1).mp h.2⟩
    · intro i hi
      have h := (hmem i).mp hi
      omega
    · intro i hi
      have h := (hmem i).mp hi
      omega
    · intro i hi
      have h := (hmem i).mp hi
      omega
  have hsum : ∑ i ∈ activeIndices v n, ((n : Int) - 1 - (i : Int))
      = ((activeIndices v n).card : Int) * ((n : Int) - 1)
        - ∑ i ∈ activeIndices v n, (i : Int) := by
    rw [Finset.sum_sub_distrib]
    simp
  linarith

theorem calculatePosition_symmetric (r : LineFollower) (hN : r.numSensors ≤ 2072)
    (hsym : ∀ i, i < r.numSensors →
      (r.sensorValues i = HIGH ↔ r.sensorValues (r.numSensors - 1 - i) = HIGH))
    (h : ∃ i, i < r.numSensors ∧ r.sensorValues i = HIGH) :
    calculatePosition r = 0 := by
  have hc := activeIndices_card_pos r.sensorValues r.numSensors h
  have h2 := activeIndices_sum_symmetric r.sensorValues r.numSensors hsym
  rw [calculatePosition_of_active r hN h]
  have hc2 : ((activeIndices r.sensorValues r.numSensors).card : Int) ≠ 0 := by
    have : (0 : Int) < ((activeIndices r.sensorValues r.numSensors).card : Int) := by
      exact_mod_cast hc
    omega
  have h3 : 1000 * ∑ i ∈ activeIndices r.sensorValues r.numSensors, (i : Int)
      = ((activeIndices r.sensorValues r.numSensors).card : Int)
          * (((r.numSensors : Int) - 1) * 500) := by
    linarith
  rw [h3, Int.mul_ediv_cancel_left _ hc2]
  ring

theorem activeIndices_allHigh (n : Nat) : activeIndices allHigh n = Finset.range n := by
  simp [activeIndices, allHigh]

/-- The overflow of the sum: with 2073 sensors all HIGH the exact sum 2147628000 exceeds
`INT_MAX`, `sum` holds 2147628000 - 2^32 = -2147339296, and the result is
-2147339296 / 2073 - 2072 * 500 = -1035860 - 1036000 = -2071860. -/
theorem calculatePosition_allHigh_2073 :
    positionLoop allHigh 2073 = (-2147339296, 2073) ∧
    calculatePosition (withSnapshot 2073 allHigh) = -2071860 := by
  have hsum : ∑ i ∈ Finset.range 2073, (i : Int) = 2147628 := by
    have h := sum_range_int 2073
    push_cast at h
    omega
  have hloop : positionLoop allHigh 2073 = (-2147339296, 2073) := by
    rw [positionLoop_eq, activeIndices_allHigh, hsum, Finset.card_range]
    decide
  refine ⟨hloop, ?_⟩
  simp only [calculatePosition, withSnapshot, LineFollower.new, hloop]
  decide

theorem activeIndices_allBut (j n : Nat) :
    activeIndices (allBut j) n = (Finset.range n).erase j := by
  ext i
  simp only [activeIndices, allBut, Finset.mem_filter, Finset.mem_range, Finset.mem_erase]
  by_cases h : i = j
  · simp [h, LOW, HIGH]
  · simp [h, and_comm]

theorem positionLoop_allBut_251 : positionLoop (allBut 251) 502 = (125500000, 501) := by
  have hmem : 251 ∈ Finset.range 502 := by simp
  have hsum : ∑ i ∈ (Finset.range 502).erase 251, (i : Int) = 125500 := by
    have h := sum_range_int 502
    have h2 := Finset.add_sum_erase (Finset.range 502) (fun i => (i : Int)) hmem
    push_cast at h h2
    omega
  rw [positionLoop_eq, activeIndices_allBut, hsum, Finset.card_erase_of_mem hmem,
    Finset.card_range]
  decide

/-! ## The claims on the position estimate -/

/-- C2, the claim refuted: with 502 sensors of which all but sensor 251 read HIGH, the
loop ends with sum = 125500000 and count = 501, and `calculatePosition` returns
125500000 / 501 - 501 * 500 = 250499 - 250500 = -1, the line-lost value, although the
line is detected; `calculatePID` then takes the line-lost branch. -/
theorem sentinel_collision_at_502 :
    1 ≤ (withSnapshot 502 (allBut 251)).numSensors ∧
    (∃ i, i < (withSnapshot 502 (allBut 251)).numSensors ∧
      (withSnapshot 502 (allBut 251)).sensorValues i = HIGH) ∧
    positionLoop (allBut 251) 502 = (125500000, 501) ∧
    calculatePosition (withSnapshot 502 (allBut 251)) = -1 ∧
    (calculatePID (withSnapshot 502 (allBut 251))
      (calculatePosition (withSnapshot 502 (allBut 251)))).1 = 0 := by
  have hloop : positionLoop (allBut 251) 502 = (125500000, 501) :=
    positionLoop_allBut_251
  have hpos : calculatePosition (withSnapshot 502 (allBut 251)) = -1 := by
    simp only [calculatePosition, withSnapshot, LineFollower.new, hloop]
    decide
  refine ⟨by decide, ⟨0, by decide, by decide⟩, hloop, hpos, ?_⟩
  rw [hpos]
  simp [calculatePID]

/-- C2, as amended: for every sensor count N <= 501 and every snapshot with at least one
sensor reading HIGH (so that N >= 1), `calculatePosition` returns a value different from -1,
and `calculatePID` on that value takes the tracking branch (it records the value as
`lastError`). -/
theorem sentinel_distinct_upto_501 (r : LineFollower)
    (hN : r.numSensors ≤ 501) (h : ∃ i, i < r.numSensors ∧ r.sensorValues i = HIGH) :
    calculatePosition r ≠ -1 ∧
    ∀ s : LineFollower, (calculatePID s (calculatePosition r)).2.lastError
      = calculatePosition r := by
  have hne := position_ne_sentinel r hN h
  refine ⟨hne, ?_⟩
  intro s
  simp [calculatePID, hne]

theorem sentinel_distinct_upto_501_witness :
    calculatePosition (withSnapshot 5 (ofList [0, 1, 1, 0, 0])) ≠ -1 :=
  (sentinel_distinct_upto_501 (withSnapshot 5 (ofList [0, 1, 1, 0, 0]))
    (by decide) ⟨1, by decide, by decide⟩).1

theorem exists_high_of_nonempty (v : Nat → Int) (n : Nat) (h : (activeIndices v n).Nonempty) :
    ∃ i, i < n ∧ v i = HIGH := by
  obtain ⟨i, hi⟩ := h
  simp only [activeIndices, Finset.mem_filter, Finset.mem_range] at hi
  exact ⟨i, hi.1, hi.2⟩

/-- C3, the claim refuted: with 2073 sensors all HIGH the set A is non-empty and
(1000 * sum of A) / |A| - (N-1)*500 = 2147628000 / 2073 - 1036000 = 0, but the `int` sum
of the loop overflows and `calculatePosition` returns -2071860. -/
theorem mean_formula_fails_at_2073 :
    (activeIndices (withSnapshot 2073 allHigh).sensorValues
      (withSnapshot 2073 allHigh).numSensors).Nonempty ∧
    Int.tdiv
        (1000 * ∑ i ∈ activeIndices (withSnapshot 2073 allHigh).sensorValues
          (withSnapshot 2073 allHigh).numSensors, (i : Int))
        ((activeIndices (withSnapshot 2073 allHigh).sensorValues
          (withSnapshot 2073 allHigh).numSensors).card : Int)
      - (((withSnapshot 2073 allHigh).numSensors : Int) - 1) * 500 = 0 ∧
    calculatePosition (withSnapshot 2073 allHigh) = -2071860 := by
  have hA : activeIndices (withSnapshot 2073 allHigh).sensorValues
      (withSnapshot 2073 allHigh).numSensors = Finset.range 2073 :=
    activeIndices_allHigh 2073
  have hsum : ∑ i ∈ Finset.range 2073, (i : Int) = 2147628 := by
    have h := sum_range_int 2073
    push_cast at h
    omega
  refine ⟨?_, ?_, calculatePosition_allHigh_2073.2⟩
  · rw [hA]
    exact ⟨0, by simp⟩
  · rw [hA, hsum, Finset.card_range]
    decide

/-- C3, as amended: for every N <= 2072 and every snapshot whose set A of HIGH indices is
non-empty, `calculatePosition` returns (1000 * sum of i over A) / |A| - (N-1)*500 with the
truncating division; and any other snapshot of the same N with the same sum and the same
number of active indices gives the same result, however its active sensors are
grouped. -/
theorem position_is_recentred_mean (r : LineFollower) (hN : r.numSensors ≤ 2072)
    (h : (activeIndices r.sensorValues r.numSensors).Nonempty) :
    calculatePosition r =
      Int.tdiv (1000 * ∑ i ∈ activeIndices r.sensorValues r.numSensors, (i : Int))
          ((activeIndices r.sensorValues r.numSensors).card : Int)
        - ((r.numSensors : Int) - 1) * 500 ∧
    ∀ r2 : LineFollower, r2.numSensors = r.numSensors →
      ∑ i ∈ activeIndices r2.sensorValues r2.numSensors, (i : Int)
        = ∑ i ∈ activeIndices r.sensorValues r.numSensors, (i : Int) →
      (activeIndices r2.sensorValues r2.numSensors).card
        = (activeIndices r.sensorValues r.numSensors).card →
      calculatePosition r2 = calculatePosition r := by
  have hex := exists_high_of_nonempty _ _ h
  have hc := activeIndices_card_pos r.sensorValues r.numSensors hex
  have hs := activeIndices_sum_nonneg r.sensorValues r.numSensors
  constructor
  · rw [calculatePosition_of_active r hN hex, Int.tdiv_eq_ediv (by omega) (by omega)]
  · intro r2 hn hs2 hcard
    rw [calculatePosition_eq r2, calculatePosition_eq r, hs2, hcard, hn]

theorem position_is_recentred_mean_witness :
    calculatePosition (withSnapshot 5 (ofList [0, 1, 1, 0, 0])) = -500 ∧
    calculatePosition (withSnapshot 5 (ofList [1, 0, 0, 1, 0]))
      = calculatePosition (withSnapshot 5 (ofList [0, 1, 1, 0, 0])) :=
  have h := position_is_recentred_mean (withSnapshot 5 (ofList [0, 1, 1, 0, 0]))
    (by decide) ⟨1, by decide⟩
  ⟨h.1.trans (by decide),
   h.2 (withSnapshot 5 (ofList [1, 0, 0, 1, 0])) rfl (by decide) (by decide)⟩

/-- C4, the claim refuted: with 2073 sensors all HIGH the `int` sum of the loop overflows
and `calculatePosition` returns -2071860, below -(N-1)*500 = -1036000. -/
theorem position_out_of_band_at_2073 :
    (∃ i, i < (withSnapshot 2073 allHigh).numSensors ∧
      (withSnapshot 2073 allHigh).sensorValues i = HIGH) ∧
    calculatePosition (withSnapshot 2073 allHigh) = -2071860 ∧
    calculatePosition (withSnapshot 2073 allHigh)
      < -((((withSnapshot 2073 allHigh).numSensors : Int) - 1) * 500) := by
  refine ⟨⟨0, by decide, rfl⟩, calculatePosition_allHigh_2073.2, ?_⟩
  rw [calculatePosition_allHigh_2073.2]
  decide

/-- C4, as amended: for every N <= 2072 and every snapshot with at least one sensor
reading HIGH (hence N >= 1), the value p returned by `calculatePosition` satisfies
-(N-1)*500 <= p <= (N-1)*500. -/
theorem position_bounded (r : LineFollower) (hN : r.numSensors ≤ 2072)
    (h : ∃ i, i < r.numSensors ∧ r.sensorValues i = HIGH) :
    -(((r.numSensors : Int) - 1) * 500) ≤ calculatePosition r ∧
    calculatePosition r ≤ ((r.numSensors : Int) - 1) * 500 :=
  position_bounds r hN h

theorem position_bounded_witness :
    -3500 ≤ calculatePosition (withSnapshot 8 (allBut 3)) ∧
    calculatePosition (withSnapshot 8 (allBut 3)) ≤ 3500 :=
  have h := position_bounded (withSnapshot 8 (allBut 3)) (by decide)
    ⟨0, by decide, by decide⟩
  ⟨le_trans (by decide) h.1, le_trans h.2 (by decide)⟩

/-- C5, the claim refuted: with 2073 sensors the snapshot in which only sensor 0 is HIGH
yields -(N-1)*500 = -1036000, but the snapshot in which all sensors are HIGH overflows
the `int` sum and yields -2071860, a more negative value. -/
theorem all_high_below_leftmost_at_2073 :
    calculatePosition (withSnapshot 2073 (onlySensor 0))
      = -((((withSnapshot 2073 (onlySensor 0)).numSensors : Int) - 1) * 500) ∧
    calculatePosition (withSnapshot 2073 (onlySensor 0)) = -1036000 ∧
    (∃ i, i < (withSnapshot 2073 allHigh).numSensors ∧
      (withSnapshot 2073 allHigh).sensorValues i = HIGH) ∧
    calculatePosition (withSnapshot 2073 allHigh) = -2071860 ∧
    calculatePosition (withSnapshot 2073 allHigh)
      < calculatePosition (withSnapshot 2073 (onlySensor 0)) := by
  have hleft : calculatePosition (withSnapshot 2073 (onlySensor 0)) = -1036000 := by
    rw [calculatePosition_eq,
      activeIndices_single (withSnapshot 2073 (onlySensor 0)).sensorValues
        (withSnapshot 2073 (onlySensor 0)).numSensors 0
        (by decide) (by decide)
        (by intro i _ hne; simp [withSnapshot, LineFollower.new, onlySensor, hne, LOW, HIGH])]
    decide
  refine ⟨?_, hleft, ⟨0, by decide, rfl⟩, calculatePosition_allHigh_2073.2, ?_⟩
  · rw [hleft]
    decide
  · rw [hleft, calculatePosition_allHigh_2073.2]
    decide

/-- C5, as amended: for every N with 1 <= N <= 2072, a snapshot in which only sensor 0 is
HIGH yields -(N-1)*500 and a snapshot in which only sensor N-1 is HIGH yields +(N-1)*500,
and every snapshot of that N with at least one sensor HIGH yields a value between the
two. -/
theorem extreme_sensors_extreme_estimates (r : LineFollower) (hN1 : 1 ≤ r.numSensors)
    (hN : r.numSensors ≤ 2072) :
    (r.sensorValues 0 = HIGH →
      (∀ i, i < r.numSensors → i ≠ 0 → r.sensorValues i ≠ HIGH) →
      calculatePosition r = -(((r.numSensors : Int) - 1) * 500)) ∧
    (r.sensorValues (r.numSensors - 1) = HIGH →
      (∀ i, i < r.numSensors → i ≠ r.numSensors - 1 → r.sensorValues i ≠ HIGH) →
      calculatePosition r = ((r.numSensors : Int) - 1) * 500) ∧
    ((∃ i, i < r.numSensors ∧ r.sensorValues i = HIGH) →
      -(((r.numSensors : Int) - 1) * 500) ≤ calculatePosition r ∧
      calculatePosition r ≤ ((r.numSensors : Int) - 1) * 500) := by
  refine ⟨?_, ?_, ?_⟩
  · intro h0 hrest
    rw [calculatePosition_single r hN 0 (by omega) h0 hrest]
    simp
  · intro hl hrest
    rw [calculatePosition_single r hN (r.numSensors - 1) (by omega) hl hrest]
    have : ((r.numSensors - 1 : Nat) : Int) = (r.numSensors : Int) - 1 := by omega
    rw [this]
    ring
  · intro h
    exact position_bounds r hN h

theorem extreme_sensors_extreme_estimates_witness :
    calculatePosition (withSnapshot 5 (onlySensor 0)) = -2000 ∧
    calculatePosition (withSnapshot 5 (onlySensor 4)) = 2000 ∧
    -2000 ≤ calculatePosition (withSnapshot 5 (ofList [0, 1, 1, 0, 0])) ∧
    calculatePosition (withSnapshot 5 (ofList [0, 1, 1, 0, 0])) ≤ 2000 :=
  ⟨((extreme_sensors_extreme_estimates (withSnapshot 5 (onlySensor 0)) (by decide)
      (by decide)).1 (by decide)
      (by
        intro i hi hne
        simp [withSnapshot, LineFollower.new, onlySensor, hne, LOW, HIGH])).trans (by decide),
   ((extreme_sensors_extreme_estimates (withSnapshot 5 (onlySensor 4)) (by decide)
      (by decide)).2.1 (by decide)
      (by
        intro i hi hne
        have hne4 : i ≠ 4 := hne
        simp [withSnapshot, LineFollower.new, onlySensor, hne4, LOW, HIGH])).trans (by decide),
   le_trans (by decide) ((extreme_sensors_extreme_estimates
      (withSnapshot 5 (ofList [0, 1, 1, 0, 0])) (by decide) (by decide)).2.2
        ⟨1, by decide, by decide⟩).1,
   le_trans ((extreme_sensors_extreme_estimates
      (withSnapshot 5 (ofList [0, 1, 1, 0, 0])) (by decide) (by decide)).2.2
        ⟨1, by decide, by decide⟩).2 (by decide)⟩

/-- C6, the claim refuted: with 2073 sensors all HIGH the snapshot is symmetric about the
middle and has a sensor HIGH, but the `int` sum of the loop overflows and
`calculatePosition` returns -2071860, not 0. -/
theorem symmetric_all_high_not_zero_at_2073 :
    (∀ i, i < (withSnapshot 2073 allHigh).numSensors →
      ((withSnapshot 2073 allHigh).sensorValues i = HIGH ↔
        (withSnapshot 2073 allHigh).sensorValues
          ((withSnapshot 2073 allHigh).numSensors - 1 - i) = HIGH)) ∧
    (∃ i, i < (withSnapshot 2073 allHigh).numSensors ∧
      (withSnapshot 2073 allHigh).sensorValues i = HIGH) ∧
    calculatePosition (withSnapshot 2073 allHigh) = -2071860 ∧
    calculatePosition (withSnapshot 2073 allHigh) ≠ 0 := by
  refine ⟨?_, ⟨0, by decide, rfl⟩, calculatePosition_allHigh_2073.2, ?_⟩
  · intro i _
    exact ⟨fun _ => rfl, fun _ => rfl⟩
  · rw [calculatePosition_allHigh_2073.2]
    decide

/-- C6, as amended: for every N <= 2072 and every snapshot that is symmetric about the
middle of the array (sensor i is HIGH exactly when sensor N-1-i is HIGH) with at least
one sensor HIGH, `calculatePosition` returns exactly 0; and for every odd N, the snapshot
in which only the centre sensor (N-1)/2 is HIGH yields 0. -/
theorem centred_line_maps_to_zero :
    (∀ r : LineFollower, r.numSensors ≤ 2072 →
      (∀ i, i < r.numSensors →
        (r.sensorValues i = HIGH ↔ r.sensorValues (r.numSensors - 1 - i) = HIGH)) →
      (∃ i, i < r.numSensors ∧ r.sensorValues i = HIGH) →
      calculatePosition r = 0) ∧
    (∀ r : LineFollower, r.numSensors % 2 = 1 →
      r.sensorValues ((r.numSensors - 1) / 2) = HIGH →
      (∀ i, i < r.numSensors → i ≠ (r.numSensors - 1) / 2 → r.sensorValues i ≠ HIGH) →
      calculatePosition r = 0) := by
  constructor
  · intro r hN hsym h
    exact calculatePosition_symmetric r hN hsym h
  · intro r hodd hc hrest
    exact calculatePosition_centre r hodd hc hrest

theorem centred_line_maps_to_zero_witness :
    calculatePosition (withSnapshot 6 (ofList [0, 1, 1, 1, 1, 0])) = 0 ∧
    calculatePosition (withSnapshot 5 (onlySensor 2)) = 0 :=
  ⟨centred_line_maps_to_zero.1 (withSnapshot 6 (ofList [0, 1, 1, 1, 1, 0])) (by decide)
      (by
        intro i hi
        have hi6 : i < 6 := hi
        interval_cases i <;> decide)
      ⟨1, by decide, by decide⟩,
   centred_line_maps_to_zero.2 (withSnapshot 5 (onlySensor 2)) (by decide) (by decide)
      (by
        intro i hi hne
        have hne2 : i ≠ 2 := hne
        simp [withSnapshot, LineFollower.new, onlySensor, hne2, LOW, HIGH])⟩

/-! ## Arithmetic of `float` -/

theorem roundHalfEven_intCast (z : Int) : roundHalfEven (z : ℚ) = z := by
  unfold roundHalfEven
  rw [Int.floor_intCast]
  simp

theorem ulpExponent_le (q : ℚ) (hq : q ≠ 0) (t : Int) (ht : -149 ≤ t)
    (h : |q| < 2 ^ (t + 24)) : ulpExponent q ≤ t := by
  have hpos : 0 < |q| := abs_pos.mpr hq
  have h2 : |q| < ((2 : ℕ) : ℚ) ^ (t + 24) := by
    simpa using h
  have hlog := (Int.lt_zpow_iff_log_lt (b := 2) (by decide) hpos).mp h2
  unfold ulpExponent
  omega

theorem roundFloat_zero : roundFloat 0 = some 0 := by
  unfold roundFloat
  have h : roundHalfEven ((0 : ℚ) / 2 ^ ulpExponent 0) = 0 := by
    rw [zero_div]
    exact roundHalfEven_intCast 0
  rw [h]
  simp

/-- A rational `m * 2^t` with less than 24 significant bits and an exponent in the range
of binary32 is a binary32 value: rounding leaves it unchanged. -/
theorem roundFloat_exact (m t : Int) (hm : |m| < 2 ^ 24) (ht : -149 ≤ t) (ht2 : t ≤ 104) :
    roundFloat ((m : ℚ) * 2 ^ t) = some ((m : ℚ) * 2 ^ t) := by
  by_cases hm0 : m = 0
  · subst hm0
    simp [roundFloat_zero]
  have h2pos : (0 : ℚ) < 2 := by norm_num
  have h2ne : (2 : ℚ) ≠ 0 := by norm_num
  have hq : (m : ℚ) * 2 ^ t ≠ 0 :=
    mul_ne_zero (by exact_mod_cast hm0) (zpow_ne_zero t h2ne)
  have hmabs : |(m : ℚ)| < 2 ^ (24 : Int) := by
    have : ((|m| : Int) : ℚ) < ((2 ^ 24 : Int) : ℚ) := by exact_mod_cast hm
    rw [Int.cast_abs] at this
    have h24 : ((2 ^ 24 : Int) : ℚ) = 2 ^ (24 : Int) := by norm_num
    rw [h24] at this
    exact this
  have habs : |(m : ℚ) * 2 ^ t| < 2 ^ (t + 24) := by
    rw [abs_mul, abs_of_pos (zpow_pos h2pos t), zpow_add₀ h2ne, mul_comm]
    exact mul_lt_mul_of_pos_left hmabs (zpow_pos h2pos t)
  have hu := ulpExponent_le _ hq t ht habs
  obtain ⟨k, hk⟩ := Int.eq_ofNat_of_zero_le (show 0 ≤ t - ulpExponent ((m : ℚ) * 2 ^ t) by omega)
  have hdiv : (m : ℚ) * 2 ^ t / 2 ^ ulpExponent ((m : ℚ) * 2 ^ t)
      = ((m * 2 ^ k : Int) : ℚ) := by
    rw [mul_div_assoc, ← zpow_sub₀ h2ne, hk]
    push_cast
    rw [zpow_natCast]
  have hback : ((m * 2 ^ k : Int) : ℚ) * 2 ^ ulpExponent ((m : ℚ) * 2 ^ t)
      = (m : ℚ) * 2 ^ t := by
    push_cast
    rw [← zpow_natCast, ← hk, mul_assoc, ← zpow_add₀ h2ne]
    congr 2
    omega
  have hlt : |(m : ℚ) * 2 ^ t| < 2 ^ (128 : Nat) := by
    have h128 : (2 : ℚ) ^ (t + 24) ≤ 2 ^ (128 : Int) :=
      zpow_le_zpow_right₀ (by norm_num) (by omega)
    have : (2 : ℚ) ^ (128 : Int) = 2 ^ (128 : Nat) := by
      rw [← zpow_natCast]
      rfl
    linarith
  unfold roundFloat
  rw [hdiv, roundHalfEven_intCast, hback, if_pos hlt]

theorem abs_lt_two_pow_24 (n : Int) (h1 : -16777216 < n) (h2 : n < 16777216) :
    |n| < 2 ^ 24 := by
  rw [abs_lt]
  constructor <;> norm_num <;> omega

/-- Every integer of magnitude below 2^24 is a binary32 value. -/
theorem roundFloat_intCast (n : Int) (h1 : -16777216 < n) (h2 : n < 16777216) :
    roundFloat (n : ℚ) = some (n : ℚ) := by
  have h := roundFloat_exact n 0 (abs_lt_two_pow_24 n h1 h2) (by decide) (by decide)
  simpa using h

/-- Every half of an integer of magnitude below 2^24 is a binary32 value. -/
theorem roundFloat_half (n : Int) (h1 : -16777216 < n) (h2 : n < 16777216) :
    roundFloat ((n : ℚ) / 2) = some ((n : ℚ) / 2) := by
  have h := roundFloat_exact n (-1) (abs_lt_two_pow_24 n h1 h2) (by decide) (by decide)
  have h2 : (n : ℚ) * 2 ^ (-1 : Int) = (n : ℚ) / 2 := by
    rw [zpow_neg_one]
    ring
  rw [h2] at h
  exact h


theorem tdiv_two (n : Int) :
    Int.tdiv n 2 = if 0 ≤ n then n / 2 else -((-n) / 2) := by
  split_ifs with h
  · exact Int.tdiv_eq_ediv h (by decide)
  · have h2 : n = -(-n) := by omega
    rw [h2, Int.neg_tdiv, Int.tdiv_eq_ediv (by omega) (by decide)]
    simp

theorem floatToInt_intCast (n : Int) (h : fitsInt n) : floatToInt (some (n : ℚ)) = n := by
  simp only [fitsInt] at h
  simp [floatToInt, h.1, h.2]

theorem truncate_half (n : Int) :
    Int.tdiv ((n : ℚ) / 2).num ((n : ℚ) / 2).den = Int.tdiv n 2 := by
  rcases Int.even_or_odd n with hev | hodd
  · obtain ⟨k, hk⟩ := hev
    have h1 : (n : ℚ) / 2 = ((k : Int) : ℚ) := by
      rw [hk]
      push_cast
      ring
    have h2 : n = 2 * k := by omega
    rw [h1, h2, Int.mul_tdiv_cancel_left k (by decide)]
    simp
  · have hco : Nat.Coprime n.natAbs (2 : Int).natAbs := by
      have : Odd n.natAbs := Int.natAbs_odd.mpr hodd
      exact (Nat.coprime_two_right (n := n.natAbs)).mpr this
    have hnum := Rat.num_div_eq_of_coprime (a := n) (b := 2) (by decide) hco
    have hden := Rat.den_div_eq_of_coprime (a := n) (b := 2) (by decide) hco
    have hcast : ((2 : Int) : ℚ) = 2 := by norm_num
    rw [hcast] at hnum hden
    rw [hnum, hden]

theorem floatToInt_half (n : Int) (h1 : -4294967296 < n) (h2 : n < 4294967296) :
    floatToInt (some ((n : ℚ) / 2)) = Int.tdiv n 2 := by
  have ht := tdiv_two n
  have hfit : INT_MIN ≤ Int.tdiv n 2 ∧ Int.tdiv n 2 ≤ INT_MAX := by
    simp only [INT_MIN, INT_MAX]
    rw [ht]
    split_ifs <;> omega
  simp only [floatToInt, truncate_half, hfit, and_self, if_true]

theorem constrain_eq_clamp (amt low high : Int) (h : low ≤ high) :
    constrain amt low high = min (max amt low) high := by
  unfold constrain
  split_ifs <;> omega

theorem calculatePID_tracking (s : LineFollower) (p : Int) (hp : p ≠ -1) :
    calculatePID s p =
      (pidCorrection s.Kp s.Ki s.Kd p (constrain (wrap (s.integral + p)) (-1000) 1000)
          (wrap (p - s.lastError)),
       { s with
          lastError := p, integral := constrain (wrap (s.integral + p)) (-1000) 1000 }) := by
  simp [calculatePID, hp]

/-- The correction when no `float` operation of the expression rounds: the conversion of
the exact value. -/
theorem pidCorrection_exact (Kp Ki Kd : ℚ) (e i d : Int)
    (he : isFloat (e : ℚ)) (hi : isFloat (i : ℚ)) (hd : isFloat (d : ℚ))
    (h1 : isFloat (Kp * (e : ℚ))) (h2 : isFloat (Ki * (i : ℚ))) (h3 : isFloat (Kd * (d : ℚ)))
    (h4 : isFloat (Kp * (e : ℚ) + Ki * (i : ℚ)))
    (h5 : isFloat (Kp * (e : ℚ) + Ki * (i : ℚ) + Kd * (d : ℚ))) :
    pidCorrection Kp Ki Kd e i d
      = floatToInt (some (Kp * (e : ℚ) + Ki * (i : ℚ) + Kd * (d : ℚ))) := by
  unfold isFloat at he hi hd h1 h2 h3 h4 h5
  simp only [pidCorrection, intToFloat, he, hi, hd, fmul, h1, h2, h3, fadd, h4, h5]

theorem isFloat_intCast (n : Int) (h1 : -16777216 < n) (h2 : n < 16777216) :
    isFloat (n : ℚ) :=
  roundFloat_intCast n h1 h2

theorem isFloat_zero : isFloat 0 :=
  roundFloat_zero

theorem pidCorrection_zero (Kp Ki Kd : ℚ) : pidCorrection Kp Ki Kd 0 0 0 = 0 := by
  have hz : isFloat ((0 : Int) : ℚ) := by
    simpa using isFloat_zero
  rw [pidCorrection_exact Kp Ki Kd 0 0 0 hz hz hz (by simpa using isFloat_zero)
    (by simpa using isFloat_zero) (by simpa using isFloat_zero)
    (by simpa using isFloat_zero) (by simpa using isFloat_zero)]
  have h0 : Kp * ((0 : Int) : ℚ) + Ki * ((0 : Int) : ℚ) + Kd * ((0 : Int) : ℚ)
      = ((0 : Int) : ℚ) := by simp
  rw [h0, floatToInt_intCast 0 (by simp only [fitsInt, INT_MIN, INT_MAX]; omega)]

/-- The correction under the default gains Kp = 1, Ki = 0, Kd = 1/2 when the error and
the derivative are below 2^21 and 2^22 in magnitude: no operation rounds and the result
is (2 * error + derivative) / 2 truncated toward zero. -/
theorem pidCorrection_default (e i d : Int) (he1 : -2097152 < e) (he2 : e < 2097152)
    (hi1 : -1000 ≤ i) (hi2 : i ≤ 1000) (hd1 : -4194304 < d) (hd2 : d < 4194304) :
    pidCorrection 1 0 (1 / 2) e i d = Int.tdiv (2 * e + d) 2 := by
  have hsum : (1 : ℚ) * (e : ℚ) + 0 * (i : ℚ) + 1 / 2 * (d : ℚ)
      = ((2 * e + d : Int) : ℚ) / 2 := by
    push_cast
    ring
  rw [pidCorrection_exact 1 0 (1 / 2) e i d
    (isFloat_intCast e (by omega) (by omega))
    (isFloat_intCast i (by omega) (by omega))
    (isFloat_intCast d (by omega) (by omega))
    (by rw [one_mul]; exact isFloat_intCast e (by omega) (by omega))
    (by rw [zero_mul]; exact isFloat_zero)
    (by
      have h : (1 : ℚ) / 2 * (d : ℚ) = (d : ℚ) / 2 := by ring
      rw [h]
      exact roundFloat_half d (by omega) (by omega))
    (by
      have h : (1 : ℚ) * (e : ℚ) + 0 * (i : ℚ) = (e : ℚ) := by ring
      rw [h]
      exact isFloat_intCast e (by omega) (by omega))
    (by
      rw [hsum]
      exact roundFloat_half (2 * e + d) (by omega) (by omega)),
    hsum, floatToInt_half (2 * e + d) (by omega) (by omega)]

theorem repeatPID_integral (r : LineFollower) (e : Int) (he : e ≠ -1)
    (he1 : -2147482648 ≤ e) (he2 : e ≤ 2147482647) (h0 : r.integral = 0) (k : Nat) :
    (repeatPID r e k).integral = min (max ((k : Int) * e) (-1000)) 1000 := by
  induction k with
  | zero => simp [repeatPID, h0]
  | succ k ih =>
    have hstep : (repeatPID r e (k + 1)).integral
        = constrain (wrap ((repeatPID r e k).integral + e)) (-1000) 1000 := by
      simp [repeatPID, calculatePID_tracking _ e he]
    have hk : (0 : Int) ≤ (k : Int) := Int.ofNat_nonneg k
    have hmul : (((k + 1 : Nat) : Int)) * e = (k : Int) * e + e := by push_cast; ring
    rw [hstep, ih, hmul]
    have hw : wrap (min (max ((k : Int) * e) (-1000)) 1000 + e)
        = min (max ((k : Int) * e) (-1000)) 1000 + e :=
      wrap_of_fits _ (by simp only [fitsInt, INT_MIN, INT_MAX]; omega)
    rw [hw, constrain_eq_clamp _ _ _ (by decide)]
    rcases le_total 0 e with hpos | hneg
    · have hx : 0 ≤ (k : Int) * e := mul_nonneg hk hpos
      generalize (k : Int) * e = x at hx
      omega
    · have hx : (k : Int) * e ≤ 0 := mul_nonpos_of_nonneg_of_nonpos hk hneg
      generalize (k : Int) * e = x at hx
      omega

/-- C7, the claim refuted: from the state reached by `calculatePID(1000)` on a fresh
controller (integral = 1000), `calculatePID(2147483647)` computes
integral += error = 1000 + 2147483647, which overflows `int` to -2147482649, and the
clamp leaves integral = -1000, whereas clamp(I + p, -1000, 1000) = 1000. -/
theorem integral_update_overflows :
    (repeatPID (freshController 5) 1000 1).integral = 1000 ∧
    (calculatePID (repeatPID (freshController 5) 1000 1) 2147483647).2.integral = -1000 ∧
    min (max ((repeatPID (freshController 5) 1000 1).integral + 2147483647) (-1000)) 1000
      = 1000 := by
  have h1 : (repeatPID (freshController 5) 1000 1).integral = 1000 := by
    simp only [repeatPID, calculatePID_tracking _ 1000 (by decide)]
    decide
  refine ⟨h1, ?_, ?_⟩
  · rw [calculatePID_tracking _ 2147483647 (by decide)]
    simp only [h1]
    decide
  · rw [h1]
    decide

/-- C7, as amended: for every position p other than -1 and every prior state
(lastError = L, integral = I) for which I + p and p - L do not overflow `int`, after
`calculatePID(p)` the state has lastError = p and integral = clamp(I + p, -1000, 1000),
the other fields are untouched, and the returned correction is the expression of the
source evaluated on the error p, the new integral and the derivative p - L, L being the
error of the previous cycle. -/
theorem pid_tracking_update (s : LineFollower) (p : Int) (hp : p ≠ -1)
    (hI : fitsInt (s.integral + p)) (hD : fitsInt (p - s.lastError)) :
    (calculatePID s p).2.lastError = p ∧
    (calculatePID s p).2.integral = min (max (s.integral + p) (-1000)) 1000 ∧
    (calculatePID s p).2
      = { s with lastError := p, integral := min (max (s.integral + p) (-1000)) 1000 } ∧
    (calculatePID s p).1
      = pidCorrection s.Kp s.Ki s.Kd p (calculatePID s p).2.integral (p - s.lastError) := by
  rw [calculatePID_tracking s p hp, wrap_of_fits _ hI, wrap_of_fits _ hD,
    constrain_eq_clamp _ _ _ (by decide)]
  exact ⟨rfl, rfl, rfl, rfl⟩

theorem pid_tracking_update_witness :
    (calculatePID integralProbe 5).2.lastError = 5 ∧
    (calculatePID integralProbe 5).2.integral = 1000 :=
  have h := pid_tracking_update integralProbe 5 (by decide)
    (by simp only [fitsInt, INT_MIN, INT_MAX]; decide)
    (by simp only [fitsInt, INT_MIN, INT_MAX]; decide)
  ⟨h.1, h.2.1.trans (by decide)⟩

/-- C8, the claim refuted: from a fresh controller, two calls `calculatePID(2147483647)`:
the first leaves integral = 1000, the second computes 1000 + 2147483647, which overflows
`int`, and leaves integral = -1000, whereas k*e = 2 * 2147483647 > 1000 with e > 0 calls
for +1000. -/
theorem integral_saturation_overflows :
    (2147483647 : Int) ≠ -1 ∧ (0 : Int) < 2147483647 ∧
    (1000 : Int) < |((2 : Nat) : Int) * 2147483647| ∧
    (repeatPID (freshController 5) 2147483647 1).integral = 1000 ∧
    (repeatPID (freshController 5) 2147483647 2).integral = -1000 := by
  have h1 : (repeatPID (freshController 5) 2147483647 1).integral = 1000 := by
    simp only [repeatPID, calculatePID_tracking _ 2147483647 (by decide)]
    decide
  refine ⟨by decide, by decide, by decide, h1, ?_⟩
  have h2 : (repeatPID (freshController 5) 2147483647 2).integral
      = constrain (wrap ((repeatPID (freshController 5) 2147483647 1).integral
          + 2147483647)) (-1000) 1000 := by
    simp [repeatPID, calculatePID_tracking _ 2147483647 (by decide)]
  rw [h2, h1]
  decide

/-- C8, as amended: starting from a freshly constructed controller (integral = 0), for
every error e other than the line-lost value -1 with -2147482648 <= e <= 2147482647 (so
that adding e to an integral of the band does not overflow `int`) and every k >= 0, after
k consecutive calls `calculatePID(e)` the integral is clamp(k*e, -1000, 1000): it equals
k*e as long as |k*e| <= 1000, otherwise exactly +1000 (e > 0) or -1000 (e < 0), and it
never leaves the band. -/
theorem integral_accumulates_and_saturates (n : Nat) (sensorPins fresh : Nat → Int)
    (mL1 mL2 mR1 mR2 : Int) (e : Int) (he : e ≠ -1)
    (he1 : -2147482648 ≤ e) (he2 : e ≤ 2147482647) (k : Nat) :
    (repeatPID (LineFollower.new n sensorPins mL1 mL2 mR1 mR2 fresh) e k).integral
      = min (max ((k : Int) * e) (-1000)) 1000 ∧
    (|(k : Int) * e| ≤ 1000 →
      (repeatPID (LineFollower.new n sensorPins mL1 mL2 mR1 mR2 fresh) e k).integral
        = (k : Int) * e) ∧
    (1000 < |(k : Int) * e| → 0 < e →
      (repeatPID (LineFollower.new n sensorPins mL1 mL2 mR1 mR2 fresh) e k).integral
        = 1000) ∧
    (1000 < |(k : Int) * e| → e < 0 →
      (repeatPID (LineFollower.new n sensorPins mL1 mL2 mR1 mR2 fresh) e k).integral
        = -1000) ∧
    -1000 ≤ (repeatPID (LineFollower.new n sensorPins mL1 mL2 mR1 mR2 fresh) e k).integral ∧
    (repeatPID (LineFollower.new n sensorPins mL1 mL2 mR1 mR2 fresh) e k).integral ≤ 1000 := by
  have h := repeatPID_integral (LineFollower.new n sensorPins mL1 mL2 mR1 mR2 fresh) e he
    he1 he2 rfl k
  rw [h]
  have hk : (0 : Int) ≤ (k : Int) := Int.ofNat_nonneg k
  refine ⟨rfl, ?_, ?_, ?_, ?_, ?_⟩
  · intro habs
    have := abs_le.mp habs
    omega
  · intro habs hpos
    have hx : 0 ≤ (k : Int) * e := mul_nonneg hk (le_of_lt hpos)
    rw [abs_of_nonneg hx] at habs
    omega
  · intro habs hneg
    have hx : (k : Int) * e ≤ 0 := mul_nonpos_of_nonneg_of_nonpos hk (le_of_lt hneg)
    rw [abs_of_nonpos hx] at habs
    omega
  · omega
  · omega

theorem integral_accumulates_and_saturates_witness :
    (repeatPID (freshController 5) 300 3).integral = 900 ∧
    (repeatPID (freshController 5) 300 4).integral = 1000 ∧
    (repeatPID (freshController 5) (-300) 4).integral = -1000 :=
  ⟨(integral_accumulates_and_saturates 5 (fun i => (i : Int) + 2) (fun _ => 0) 5 6 9 10
      300 (by decide) (by decide) (by decide) 3).2.1 (by decide),
   (integral_accumulates_and_saturates 5 (fun i => (i : Int) + 2) (fun _ => 0) 5 6 9 10
      300 (by decide) (by decide) (by decide) 4).2.2.1 (by decide) (by decide),
   (integral_accumulates_and_saturates 5 (fun i => (i : Int) + 2) (fun _ => 0) 5 6 9 10
      (-300) (by decide) (by decide) (by decide) 4).2.2.2.1 (by decide) (by decide)⟩

theorem calculatePID_speed_settings (s : LineFollower) (p : Int) :
    (calculatePID s p).2.baseSpeed = s.baseSpeed ∧
    (calculatePID s p).2.maxSpeed = s.maxSpeed := by
  unfold calculatePID
  split_ifs <;> exact ⟨rfl, rfl⟩

theorem constrain_nonneg (x m : Int) (hm : 0 ≤ m) :
    0 ≤ constrain x 0 m ∧ constrain x 0 m ≤ m := by
  rw [constrain_eq_clamp _ _ _ hm]
  omega

theorem runSpeeds_eq_clamp (r : LineFollower) (c : Int) (hm : 0 ≤ r.maxSpeed)
    (hadd : fitsInt (r.baseSpeed + c)) (hsub : fitsInt (r.baseSpeed - c)) :
    runSpeeds r c =
      (min (max (r.baseSpeed + c) 0) r.maxSpeed, min (max (r.baseSpeed - c) 0) r.maxSpeed) := by
  simp only [runSpeeds, wrap_of_fits _ hadd, wrap_of_fits _ hsub,
    constrain_eq_clamp _ _ _ hm]

theorem calculatePID_frame (s : LineFollower) (p : Int) :
    (calculatePID s p).2.numSensors = s.numSensors ∧
    (calculatePID s p).2.sensorPins = s.sensorPins ∧
    (calculatePID s p).2.sensorValues = s.sensorValues ∧
    (calculatePID s p).2.motorLeftPin1 = s.motorLeftPin1 ∧
    (calculatePID s p).2.motorLeftPin2 = s.motorLeftPin2 ∧
    (calculatePID s p).2.motorRightPin1 = s.motorRightPin1 ∧
    (calculatePID s p).2.motorRightPin2 = s.motorRightPin2 ∧
    (calculatePID s p).2.Kp = s.Kp ∧
    (calculatePID s p).2.Ki = s.Ki ∧
    (calculatePID s p).2.Kd = s.Kd := by
  unfold calculatePID
  split_ifs <;> exact ⟨rfl, rfl, rfl, rfl, rfl, rfl, rfl, rfl, rfl, rfl⟩

/-- One cycle of `run`, with the two speeds written in terms of the object before the
cycle: `calculatePID` changes neither the speed settings nor the motor pins. -/
theorem run_eq (r : LineFollower) (digitalRead : Int → Int) :
    run r digitalRead =
      ((calculatePID (readSensors r digitalRead)
          (calculatePosition (readSensors r digitalRead))).2,
       setMotorSpeeds r
        (runSpeeds r (calculatePID (readSensors r digitalRead)
          (calculatePosition (readSensors r digitalRead))).1).1
        (runSpeeds r (calculatePID (readSensors r digitalRead)
          (calculatePosition (readSensors r digitalRead))).1).2) := by
  have hs := calculatePID_speed_settings (readSensors r digitalRead)
    (calculatePosition (readSensors r digitalRead))
  have hf := calculatePID_frame (readSensors r digitalRead)
    (calculatePosition (readSensors r digitalRead))
  have hb : (readSensors r digitalRead).baseSpeed = r.baseSpeed := rfl
  have hx : (readSensors r digitalRead).maxSpeed = r.maxSpeed := rfl
  have h1 : (readSensors r digitalRead).motorLeftPin1 = r.motorLeftPin1 := rfl
  have h2 : (readSensors r digitalRead).motorLeftPin2 = r.motorLeftPin2 := rfl
  have h3 : (readSensors r digitalRead).motorRightPin1 = r.motorRightPin1 := rfl
  have h4 : (readSensors r digitalRead).motorRightPin2 = r.motorRightPin2 := rfl
  simp only [run, runSpeeds, setMotorSpeeds, hs.1, hs.2, hb, hx, hf.2.2.2.1, hf.2.2.2.2.1,
    hf.2.2.2.2.2.1, hf.2.2.2.2.2.2.1, h1, h2, h3, h4]

theorem setMotorSpeeds_of_nonneg (r : LineFollower) (leftSpeed rightSpeed : Int)
    (hl : 0 ≤ leftSpeed) (hr : 0 ≤ rightSpeed) :
    setMotorSpeeds r leftSpeed rightSpeed =
      [(r.motorLeftPin1, leftSpeed), (r.motorLeftPin2, 0),
       (r.motorRightPin1, rightSpeed), (r.motorRightPin2, 0)] := by
  simp [setMotorSpeeds, hl, hr]

/-- C10, the claim refuted: with baseSpeed = 2147483647 (accepted by `setSpeed`),
maxSpeed = 200 and correction 1500, baseSpeed + correction overflows `int` to a negative
value and leftSpeed = 0, whereas min(max(b + c, 0), m) = 200. -/
theorem drive_mapping_overflows :
    (0 : Int) ≤ (setSpeed (freshController 5) 2147483647 200).maxSpeed ∧
    runSpeeds (setSpeed (freshController 5) 2147483647 200) 1500 = (0, 200) ∧
    min (max ((setSpeed (freshController 5) 2147483647 200).baseSpeed + 1500) 0)
      (setSpeed (freshController 5) 2147483647 200).maxSpeed = 200 := by
  decide

/-- C10, as amended: for every baseSpeed b, correction c and maxSpeed m >= 0, both speeds
`run` computes lie in [0, m]; when b + c and b - c do not overflow `int` they are
left = min(max(b + c, 0), m) and right = min(max(b - c, 0), m); and in a cycle of `run`
the two computed speeds are the arguments of `setMotorSpeeds`, with c the correction
returned by `calculatePID` in that cycle. -/
theorem drive_mapping (r : LineFollower) (c : Int) (digitalRead : Int → Int)
    (hm : 0 ≤ r.maxSpeed) :
    (fitsInt (r.baseSpeed + c) → fitsInt (r.baseSpeed - c) →
      runSpeeds r c =
        (min (max (r.baseSpeed + c) 0) r.maxSpeed,
         min (max (r.baseSpeed - c) 0) r.maxSpeed)) ∧
    (0 ≤ (runSpeeds r c).1 ∧ (runSpeeds r c).1 ≤ r.maxSpeed) ∧
    (0 ≤ (runSpeeds r c).2 ∧ (runSpeeds r c).2 ≤ r.maxSpeed) ∧
    (run r digitalRead).2 =
      setMotorSpeeds (run r digitalRead).1
        (runSpeeds r (calculatePID (readSensors r digitalRead)
          (calculatePosition (readSensors r digitalRead))).1).1
        (runSpeeds r (calculatePID (readSensors r digitalRead)
          (calculatePosition (readSensors r digitalRead))).1).2 ∧
    (fitsInt (r.baseSpeed + (calculatePID (readSensors r digitalRead)
        (calculatePosition (readSensors r digitalRead))).1) →
      fitsInt (r.baseSpeed - (calculatePID (readSensors r digitalRead)
        (calculatePosition (readSensors r digitalRead))).1) →
      (run r digitalRead).2 =
        setMotorSpeeds (run r digitalRead).1
          (min (max (r.baseSpeed +
            (calculatePID (readSensors r digitalRead)
              (calculatePosition (readSensors r digitalRead))).1) 0) r.maxSpeed)
          (min (max (r.baseSpeed -
            (calculatePID (readSensors r digitalRead)
              (calculatePosition (readSensors r digitalRead))).1) 0) r.maxSpeed)) := by
  have hrun : (run r digitalRead).2 =
      setMotorSpeeds (run r digitalRead).1
        (runSpeeds r (calculatePID (readSensors r digitalRead)
          (calculatePosition (readSensors r digitalRead))).1).1
        (runSpeeds r (calculatePID (readSensors r digitalRead)
          (calculatePosition (readSensors r digitalRead))).1).2 := by
    have hf := calculatePID_frame (readSensors r digitalRead)
      (calculatePosition (readSensors r digitalRead))
    rw [run_eq]
    simp only [setMotorSpeeds, hf.2.2.2.1, hf.2.2.2.2.1, hf.2.2.2.2.2.1, hf.2.2.2.2.2.2.1]
    rfl
  refine ⟨fun hadd hsub => runSpeeds_eq_clamp r c hm hadd hsub,
    constrain_nonneg _ _ hm, constrain_nonneg _ _ hm, hrun, ?_⟩
  intro hadd hsub
  rw [hrun, runSpeeds_eq_clamp r _ hm hadd hsub]

theorem drive_mapping_witness :
    runSpeeds (setSpeed (freshController 5) 150 200) 0 = (150, 150) ∧
    runSpeeds (setSpeed (freshController 5) 150 200) 100 = (200, 50) ∧
    runSpeeds (setSpeed (freshController 5) 150 200) (-250) = (0, 200) :=
  ⟨((drive_mapping (setSpeed (freshController 5) 150 200) 0 (fun _ => 0) (by decide)).1
      (by simp only [fitsInt, INT_MIN, INT_MAX]; decide)
      (by simp only [fitsInt, INT_MIN, INT_MAX]; decide)).trans (by decide),
   ((drive_mapping (setSpeed (freshController 5) 150 200) 100 (fun _ => 0) (by decide)).1
      (by simp only [fitsInt, INT_MIN, INT_MAX]; decide)
      (by simp only [fitsInt, INT_MIN, INT_MAX]; decide)).trans (by decide),
   ((drive_mapping (setSpeed (freshController 5) 150 200) (-250) (fun _ => 0)
      (by decide)).1
      (by simp only [fitsInt, INT_MIN, INT_MAX]; decide)
      (by simp only [fitsInt, INT_MIN, INT_MAX]; decide)).trans (by decide)⟩

/-! ## Actuation and configuration -/

/-- C11: for every controller state, `stop()` writes duty 0 to the four motor outputs
(left forward, left reverse, right forward, right reverse), which is what
`setMotorSpeeds(0, 0)` writes, and leaves the object unchanged: lastError, integral, Kp,
Ki, Kd, baseSpeed and maxSpeed keep their values. -/
theorem stop_is_neutral (r : LineFollower) :
    (stop r).2 = [(r.motorLeftPin1, 0), (r.motorLeftPin2, 0),
                  (r.motorRightPin1, 0), (r.motorRightPin2, 0)] ∧
    (stop r).2 = setMotorSpeeds r 0 0 ∧
    (stop r).1.lastError = r.lastError ∧
    (stop r).1.integral = r.integral ∧
    (stop r).1.Kp = r.Kp ∧ (stop r).1.Ki = r.Ki ∧ (stop r).1.Kd = r.Kd ∧
    (stop r).1.baseSpeed = r.baseSpeed ∧
    (stop r).1.maxSpeed = r.maxSpeed ∧
    (stop r).1 = r := by
  refine ⟨?_, rfl, rfl, rfl, rfl, rfl, rfl, rfl, rfl, rfl⟩
  simp [stop, setMotorSpeeds]

/-- C12: for every pair (leftSpeed, rightSpeed) of speeds above the minimum `int` (whose
negation overflows), `setMotorSpeeds` writes to each motor's forward output max(s, 0) and
to its reverse output max(-s, 0), s being that motor's speed; every written duty is
non-negative, at most one of the two outputs of a motor is nonzero, and the two duties of
a motor add up to |s|, so the nonzero one is |s|. -/
theorem signed_speed_actuation (r : LineFollower) (leftSpeed rightSpeed : Int)
    (hl : INT_MIN < leftSpeed) (hr : INT_MIN < rightSpeed) :
    setMotorSpeeds r leftSpeed rightSpeed =
      [(r.motorLeftPin1, max leftSpeed 0), (r.motorLeftPin2, max (-leftSpeed) 0),
       (r.motorRightPin1, max rightSpeed 0), (r.motorRightPin2, max (-rightSpeed) 0)] ∧
    (∀ w ∈ setMotorSpeeds r leftSpeed rightSpeed, 0 ≤ w.2) ∧
    (max leftSpeed 0 = 0 ∨ max (-leftSpeed) 0 = 0) ∧
    (max rightSpeed 0 = 0 ∨ max (-rightSpeed) 0 = 0) ∧
    max leftSpeed 0 + max (-leftSpeed) 0 = |leftSpeed| ∧
    max rightSpeed 0 + max (-rightSpeed) 0 = |rightSpeed| := by
  simp only [INT_MIN] at hl hr
  have hwl : leftSpeed < 0 → wrap (-leftSpeed) = -leftSpeed := by
    intro h
    unfold wrap
    omega
  have hwr : rightSpeed < 0 → wrap (-rightSpeed) = -rightSpeed := by
    intro h
    unfold wrap
    omega
  have hform : setMotorSpeeds r leftSpeed rightSpeed =
      [(r.motorLeftPin1, max leftSpeed 0), (r.motorLeftPin2, max (-leftSpeed) 0),
       (r.motorRightPin1, max rightSpeed 0), (r.motorRightPin2, max (-rightSpeed) 0)] := by
    unfold setMotorSpeeds
    by_cases hl0 : leftSpeed ≥ 0 <;> by_cases hr0 : rightSpeed ≥ 0
    · have h1 : max leftSpeed 0 = leftSpeed := by omega
      have h2 : max (-leftSpeed) 0 = 0 := by omega
      have h3 : max rightSpeed 0 = rightSpeed := by omega
      have h4 : max (-rightSpeed) 0 = 0 := by omega
      simp [hl0, hr0, h1, h2, h3, h4]
    · have h1 : max leftSpeed 0 = leftSpeed := by omega
      have h2 : max (-leftSpeed) 0 = 0 := by omega
      have h3 : max rightSpeed 0 = 0 := by omega
      have h4 : max (-rightSpeed) 0 = -rightSpeed := by omega
      simp [hl0, hr0, h1, h2, h3, h4, hwr (by omega)]
    · have h1 : max leftSpeed 0 = 0 := by omega
      have h2 : max (-leftSpeed) 0 = -leftSpeed := by omega
      have h3 : max rightSpeed 0 = rightSpeed := by omega
      have h4 : max (-rightSpeed) 0 = 0 := by omega
      simp [hl0, hr0, h1, h2, h3, h4, hwl (by omega)]
    · have h1 : max leftSpeed 0 = 0 := by omega
      have h2 : max (-leftSpeed) 0 = -leftSpeed := by omega
      have h3 : max rightSpeed 0 = 0 := by omega
      have h4 : max (-rightSpeed) 0 = -rightSpeed := by omega
      simp [hl0, hr0, h1, h2, h3, h4, hwl (by omega), hwr (by omega)]
  refine ⟨hform, ?_, ?_, ?_, ?_, ?_⟩
  · intro w hw
    rw [hform] at hw
    simp only [List.mem_cons, List.mem_singleton, List.not_mem_nil, or_false] at hw
    rcases hw with h | h | h | h <;> rw [h] <;> simp
  · omega
  · omega
  · rcases abs_cases leftSpeed with ⟨h, _⟩ | ⟨h, _⟩ <;> omega
  · rcases abs_cases rightSpeed with ⟨h, _⟩ | ⟨h, _⟩ <;> omega

theorem signed_speed_actuation_witness :
    setMotorSpeeds (freshController 5) (-2147483647) 120
      = [(5, 0), (6, 2147483647), (9, 120), (10, 0)] :=
  (signed_speed_actuation (freshController 5) (-2147483647) 120 (by decide) (by decide)).1

/-- C14: for every state and all arguments (zero and negative ones included),
`setPID(kp, ki, kd)` sets Kp, Ki, Kd to exactly the arguments and leaves lastError,
integral, baseSpeed and maxSpeed unchanged; `setSpeed(base, max)` sets baseSpeed and
maxSpeed to exactly the arguments and leaves Kp, Ki, Kd, lastError and integral
unchanged. -/
theorem setters_touch_only_their_fields (r : LineFollower) (kp ki kd : ℚ) (base max : Int) :
    ((setPID r kp ki kd).Kp = kp ∧ (setPID r kp ki kd).Ki = ki ∧
      (setPID r kp ki kd).Kd = kd) ∧
    ((setPID r kp ki kd).lastError = r.lastError ∧
      (setPID r kp ki kd).integral = r.integral ∧
      (setPID r kp ki kd).baseSpeed = r.baseSpeed ∧
      (setPID r kp ki kd).maxSpeed = r.maxSpeed) ∧
    setPID r kp ki kd = { r with Kp := kp, Ki := ki, Kd := kd } ∧
    ((setSpeed r base max).baseSpeed = base ∧ (setSpeed r base max).maxSpeed = max) ∧
    ((setSpeed r base max).Kp = r.Kp ∧ (setSpeed r base max).Ki = r.Ki ∧
      (setSpeed r base max).Kd = r.Kd ∧
      (setSpeed r base max).lastError = r.lastError ∧
      (setSpeed r base max).integral = r.integral) ∧
    setSpeed r base max = { r with baseSpeed := base, maxSpeed := max } :=
  ⟨⟨rfl, rfl, rfl⟩, ⟨rfl, rfl, rfl, rfl⟩, rfl, ⟨rfl, rfl⟩, ⟨rfl, rfl, rfl, rfl, rfl⟩, rfl⟩

/-! ## Whole cycles -/

theorem calculatePID_integral_band (s : LineFollower) (p : Int)
    (h : -1000 ≤ s.integral ∧ s.integral ≤ 1000) :
    -1000 ≤ (calculatePID s p).2.integral ∧ (calculatePID s p).2.integral ≤ 1000 := by
  by_cases hp : p = -1
  · simp only [calculatePID, hp, if_true]
    exact h
  · rw [calculatePID_tracking s p hp, constrain_eq_clamp _ _ _ (by decide)]
    simp only
    omega

theorem run_line_lost (r : LineFollower) (digitalRead : Int → Int)
    (hb : fitsInt r.baseSpeed)
    (hlow : ∀ i, i < r.numSensors → digitalRead (r.sensorPins i) ≠ HIGH) :
    calculatePosition (readSensors r digitalRead) = -1 ∧
    run r digitalRead =
      (readSensors r digitalRead,
       setMotorSpeeds r (constrain r.baseSpeed 0 r.maxSpeed)
        (constrain r.baseSpeed 0 r.maxSpeed)) := by
  have hlow2 : ∀ i, i < (readSensors r digitalRead).numSensors →
      (readSensors r digitalRead).sensorValues i ≠ HIGH := by
    intro i hi
    have hi2 : i < r.numSensors := hi
    simp only [readSensors, hi2, if_true]
    exact hlow i hi2
  have hpos : calculatePosition (readSensors r digitalRead) = -1 := by
    simp [calculatePosition, positionLoop_count_zero _ _ hlow2]
  refine ⟨hpos, ?_⟩
  rw [run_eq, hpos]
  simp [calculatePID, runSpeeds, wrap_of_fits _ hb]

/-- C13: for a freshly constructed controller with odd N, in one cycle of `run` whose
snapshot has only the centre sensor (N-1)/2 HIGH, the position is 0, the correction is
0, the drive speeds are (150, 150) (duty 150 on both forward outputs, 0 on both reverse
outputs), and lastError and integral are 0 after the cycle. -/
theorem centred_cycle (n : Nat) (sensorPins fresh : Nat → Int) (mL1 mL2 mR1 mR2 : Int)
    (digitalRead : Int → Int) (hodd : n % 2 = 1)
    (hcentre : digitalRead (sensorPins ((n - 1) / 2)) = HIGH)
    (hrest : ∀ i, i < n → i ≠ (n - 1) / 2 → digitalRead (sensorPins i) ≠ HIGH) :
    calculatePosition
      (readSensors (LineFollower.new n sensorPins mL1 mL2 mR1 mR2 fresh) digitalRead) = 0 ∧
    (calculatePID
      (readSensors (LineFollower.new n sensorPins mL1 mL2 mR1 mR2 fresh) digitalRead) 0).1
        = 0 ∧
    runSpeeds (LineFollower.new n sensorPins mL1 mL2 mR1 mR2 fresh) 0 = (150, 150) ∧
    (run (LineFollower.new n sensorPins mL1 mL2 mR1 mR2 fresh) digitalRead).2
      = setMotorSpeeds (LineFollower.new n sensorPins mL1 mL2 mR1 mR2 fresh) 150 150 ∧
    (run (LineFollower.new n sensorPins mL1 mL2 mR1 mR2 fresh) digitalRead).2
      = [(mL1, 150), (mL2, 0), (mR1, 150), (mR2, 0)] ∧
    (run (LineFollower.new n sensorPins mL1 mL2 mR1 mR2 fresh) digitalRead).1.lastError
      = 0 ∧
    (run (LineFollower.new n sensorPins mL1 mL2 mR1 mR2 fresh) digitalRead).1.integral
      = 0 := by
  have hlt : (n - 1) / 2 < n := by omega
  have hpos : calculatePosition
      (readSensors (LineFollower.new n sensorPins mL1 mL2 mR1 mR2 fresh) digitalRead)
        = 0 := by
    apply calculatePosition_centre
    · exact hodd
    · show (readSensors (LineFollower.new n sensorPins mL1 mL2 mR1 mR2 fresh)
        digitalRead).sensorValues ((n - 1) / 2) = HIGH
      simp only [readSensors, LineFollower.new, hlt, if_true]
      exact hcentre
    · intro i hi hne
      have hi2 : i < n := hi
      have hne2 : i ≠ (n - 1) / 2 := hne
      simp only [readSensors, LineFollower.new, hi2, if_true]
      exact hrest i hi2 hne2
  have hpid : calculatePID
      (readSensors (LineFollower.new n sensorPins mL1 mL2 mR1 mR2 fresh) digitalRead) 0
        = (0, readSensors (LineFollower.new n sensorPins mL1 mL2 mR1 mR2 fresh)
            digitalRead) := by
    rw [calculatePID_tracking _ 0 (by decide)]
    have hI : (readSensors (LineFollower.new n sensorPins mL1 mL2 mR1 mR2 fresh)
        digitalRead).integral = 0 := rfl
    have hL : (readSensors (LineFollower.new n sensorPins mL1 mL2 mR1 mR2 fresh)
        digitalRead).lastError = 0 := rfl
    have hc : constrain (wrap (0 + 0)) (-1000) 1000 = 0 := by decide
    have hd : wrap (0 - 0) = 0 := by decide
    rw [hI, hL, hc, hd, pidCorrection_zero]
    rfl
  have hsp : runSpeeds (LineFollower.new n sensorPins mL1 mL2 mR1 mR2 fresh) 0
      = (150, 150) := by
    simp only [runSpeeds, LineFollower.new]
    decide
  have hrun : run (LineFollower.new n sensorPins mL1 mL2 mR1 mR2 fresh) digitalRead
      = (readSensors (LineFollower.new n sensorPins mL1 mL2 mR1 mR2 fresh) digitalRead,
         setMotorSpeeds (LineFollower.new n sensorPins mL1 mL2 mR1 mR2 fresh) 150 150) := by
    rw [run_eq, hpos, hpid, hsp]
  refine ⟨hpos, ?_, hsp, ?_, ?_, ?_, ?_⟩
  · rw [hpid]
  · rw [hrun]
  · rw [hrun]
    simp [setMotorSpeeds, LineFollower.new]
  · rw [hrun]
    rfl
  · rw [hrun]
    rfl

theorem centred_cycle_witness :
    calculatePosition (readSensors (freshController 5) (readingOf (ofList [0, 0, 1, 0, 0])))
      = 0 ∧
    (run (freshController 5) (readingOf (ofList [0, 0, 1, 0, 0]))).2
      = [(5, 150), (6, 0), (9, 150), (10, 0)] ∧
    (run (freshController 5) (readingOf (ofList [0, 0, 1, 0, 0]))).1.lastError = 0 ∧
    (run (freshController 5) (readingOf (ofList [0, 0, 1, 0, 0]))).1.integral = 0 :=
  have h := centred_cycle 5 (fun i => (i : Int) + 2) (fun _ => 0) 5 6 9 10
    (readingOf (ofList [0, 0, 1, 0, 0])) (by decide) (by decide)
    (by
      intro i hi hne
      have hne2 : i ≠ 2 := hne
      interval_cases i
      · decide
      · decide
      · exact absurd rfl hne2
      · decide
      · decide)
  ⟨h.1, h.2.2.2.2.1, h.2.2.2.2.2.1, h.2.2.2.2.2.2⟩

/-- C19: for every controller state (its baseSpeed being a value of `int`) and every
cycle of `run` whose snapshot has no sensor HIGH, `setMotorSpeeds` receives
leftSpeed = rightSpeed = constrain(baseSpeed, 0, maxSpeed), which is baseSpeed itself
whenever 0 <= baseSpeed <= maxSpeed (for baseSpeed > 0 not the zero drive command of
`stop()`), and lastError and integral are left unchanged. -/
theorem lost_line_keeps_driving (r : LineFollower) (digitalRead : Int → Int)
    (hb : fitsInt r.baseSpeed)
    (hlow : ∀ i, i < r.numSensors → digitalRead (r.sensorPins i) ≠ HIGH) :
    (run r digitalRead).2 =
      setMotorSpeeds r (constrain r.baseSpeed 0 r.maxSpeed)
        (constrain r.baseSpeed 0 r.maxSpeed) ∧
    (0 ≤ r.baseSpeed → r.baseSpeed ≤ r.maxSpeed →
      constrain r.baseSpeed 0 r.maxSpeed = r.baseSpeed ∧
      (run r digitalRead).2 =
        [(r.motorLeftPin1, r.baseSpeed), (r.motorLeftPin2, 0),
         (r.motorRightPin1, r.baseSpeed), (r.motorRightPin2, 0)]) ∧
    (0 < r.baseSpeed → r.baseSpeed ≤ r.maxSpeed →
      (run r digitalRead).2 ≠ (stop r).2) ∧
    (run r digitalRead).1.lastError = r.lastError ∧
    (run r digitalRead).1.integral = r.integral := by
  have h := (run_line_lost r digitalRead hb hlow).2
  have hc : 0 ≤ r.baseSpeed → r.baseSpeed ≤ r.maxSpeed →
      constrain r.baseSpeed 0 r.maxSpeed = r.baseSpeed := by
    intro h0 h1
    unfold constrain
    split_ifs <;> omega
  rw [h]
  refine ⟨rfl, ?_, ?_, rfl, rfl⟩
  · intro h0 h1
    refine ⟨hc h0 h1, ?_⟩
    simp only [hc h0 h1]
    exact setMotorSpeeds_of_nonneg r _ _ h0 h0
  · intro h0 h1
    simp only [hc (le_of_lt h0) h1, stop]
    rw [setMotorSpeeds_of_nonneg r _ _ (le_of_lt h0) (le_of_lt h0),
      setMotorSpeeds_of_nonneg r 0 0 (le_refl 0) (le_refl 0)]
    intro heq
    have h2 := (List.cons.inj heq).1
    have h3 : r.baseSpeed = 0 := (Prod.mk.inj h2).2
    omega

theorem lost_line_keeps_driving_witness :
    (run integralProbe (readingOf allLow)).2 = [(5, 150), (6, 0), (9, 150), (10, 0)] ∧
    (run integralProbe (readingOf allLow)).1.lastError = 3 ∧
    (run integralProbe (readingOf allLow)).1.integral = 998 :=
  have h := lost_line_keeps_driving integralProbe (readingOf allLow)
    (by simp only [fitsInt, INT_MIN, INT_MAX]; decide)
    (by intro i _; simp [readingOf, allLow, LOW, HIGH])
  ⟨(h.2.1 (by decide) (by decide)).2, h.2.2.2.1, h.2.2.2.2⟩

/-! ## Invariant and steering -/

theorem apply_integral_band (r : LineFollower) (op : Operation)
    (h : -1000 ≤ r.integral ∧ r.integral ≤ 1000) :
    -1000 ≤ (op.apply r).integral ∧ (op.apply r).integral ≤ 1000 := by
  cases op with
  | setPID kp ki kd => exact h
  | setSpeed base max => exact h
  | calculatePID position => exact calculatePID_integral_band r position h
  | run digitalRead =>
    exact calculatePID_integral_band (readSensors r digitalRead)
      (calculatePosition (readSensors r digitalRead)) h
  | stop => exact h

theorem applyAll_integral_band (ops : List Operation) (r : LineFollower)
    (h : -1000 ≤ r.integral ∧ r.integral ≤ 1000) :
    -1000 ≤ (applyAll r ops).integral ∧ (applyAll r ops).integral ≤ 1000 := by
  induction ops generalizing r with
  | nil => exact h
  | cons op rest ih => exact ih (op.apply r) (apply_integral_band r op h)

/-- C15: in every state reached from the constructor by a finite sequence of the public
operations setPID, setSpeed, calculatePID (any argument), run (any snapshot) and stop,
the integral satisfies -1000 <= integral <= 1000; the band is enforced by the clamp
itself, whose result lies in the band whatever value the accumulation produced. -/
theorem anti_windup_invariant (n : Nat) (sensorPins fresh : Nat → Int)
    (mL1 mL2 mR1 mR2 : Int) (ops : List Operation) :
    (-1000 ≤ (applyAll (LineFollower.new n sensorPins mL1 mL2 mR1 mR2 fresh) ops).integral ∧
      (applyAll (LineFollower.new n sensorPins mL1 mL2 mR1 mR2 fresh) ops).integral ≤ 1000) ∧
    ∀ x : Int, -1000 ≤ constrain x (-1000) 1000 ∧ constrain x (-1000) 1000 ≤ 1000 := by
  constructor
  · exact applyAll_integral_band ops _
      ⟨show (-1000 : Int) ≤ 0 by decide, show (0 : Int) ≤ 1000 by decide⟩
  · intro x
    rw [constrain_eq_clamp _ _ _ (by decide)]
    omega

/-- C16, the claim refuted: with baseSpeed = 150 and maxSpeed = -5, a cycle of `run` on a
lost line (correction 0) computes leftSpeed = rightSpeed = constrain(150, 0, -5) = -5,
and `setMotorSpeeds` writes duty 5 on both reverse outputs. -/
theorem negative_maxSpeed_drives_reverse :
    runSpeeds (setSpeed (freshController 5) 150 (-5)) 0 = (-5, -5) ∧
    (runSpeeds (setSpeed (freshController 5) 150 (-5)) 0).1 < 0 ∧
    (runSpeeds (setSpeed (freshController 5) 150 (-5)) 0).2 < 0 ∧
    (run (setSpeed (freshController 5) 150 (-5)) (readingOf allLow)).2
      = [(5, 0), (6, 5), (9, 0), (10, 5)] := by
  refine ⟨by decide, by decide, by decide, ?_⟩
  have h := (run_line_lost (setSpeed (freshController 5) 150 (-5)) (readingOf allLow)
    (by simp only [fitsInt, INT_MIN, INT_MAX]; decide)
    (by intro i _; simp [readingOf, allLow, LOW, HIGH])).2
  rw [h]
  decide

/-- C16, as amended: for every baseSpeed, every correction and every maxSpeed >= 0,
leftSpeed = constrain(baseSpeed + correction, 0, maxSpeed) >= 0 and
rightSpeed = constrain(baseSpeed - correction, 0, maxSpeed) >= 0, and a cycle of `run`
writes these two speeds on the forward outputs and duty 0 on both reverse outputs. -/
theorem speeds_nonneg_of_maxSpeed_nonneg (r : LineFollower) (c : Int)
    (digitalRead : Int → Int) (hm : 0 ≤ r.maxSpeed) :
    0 ≤ (runSpeeds r c).1 ∧ 0 ≤ (runSpeeds r c).2 ∧
    (run r digitalRead).2 =
      [(r.motorLeftPin1,
          (runSpeeds r (calculatePID (readSensors r digitalRead)
            (calculatePosition (readSensors r digitalRead))).1).1),
       (r.motorLeftPin2, 0),
       (r.motorRightPin1,
          (runSpeeds r (calculatePID (readSensors r digitalRead)
            (calculatePosition (readSensors r digitalRead))).1).2),
       (r.motorRightPin2, 0)] := by
  have hnn : ∀ x : Int, 0 ≤ (runSpeeds r x).1 ∧ 0 ≤ (runSpeeds r x).2 := by
    intro x
    exact ⟨(constrain_nonneg _ _ hm).1, (constrain_nonneg _ _ hm).1⟩
  refine ⟨(hnn c).1, (hnn c).2, ?_⟩
  rw [run_eq]
  exact setMotorSpeeds_of_nonneg r _ _ (hnn _).1 (hnn _).2

theorem speeds_nonneg_of_maxSpeed_nonneg_witness :
    0 ≤ (runSpeeds (freshController 5) (-250)).1 ∧
    0 ≤ (runSpeeds (freshController 5) (-250)).2 :=
  have h := speeds_nonneg_of_maxSpeed_nonneg (freshController 5) (-250) (readingOf allLow)
    (by decide)
  ⟨h.1, h.2.1⟩

/-- C17, the claim refuted: with baseSpeed = 2147483647 (accepted by `setSpeed`) and
maxSpeed = 200, the correction 0 gives leftSpeed = 200, but the correction 1 overflows
baseSpeed + correction to a negative value and gives leftSpeed = 0 < rightSpeed = 200:
for a positive correction the left speed is below the right one, and it has decreased
although the correction grew. -/
theorem steering_overflows :
    (0 : Int) ≤ (setSpeed (freshController 5) 2147483647 200).maxSpeed ∧
    runSpeeds (setSpeed (freshController 5) 2147483647 200) 0 = (200, 200) ∧
    runSpeeds (setSpeed (freshController 5) 2147483647 200) 1 = (0, 200) ∧
    (runSpeeds (setSpeed (freshController 5) 2147483647 200) 1).1
      < (runSpeeds (setSpeed (freshController 5) 2147483647 200) 1).2 ∧
    (runSpeeds (setSpeed (freshController 5) 2147483647 200) 1).1
      < (runSpeeds (setSpeed (freshController 5) 2147483647 200) 0).1 := by
  decide

/-- C17, as amended: for every baseSpeed b and every maxSpeed >= 0, over the corrections
c for which b + c and b - c do not overflow `int`, the speeds computed in `run` satisfy
leftSpeed >= rightSpeed whenever c > 0 and leftSpeed <= rightSpeed whenever c < 0; and
for two such corrections c1 <= c2, leftSpeed at c1 is at most leftSpeed at c2 and
rightSpeed at c1 is at least rightSpeed at c2. -/
theorem steering_direction (r : LineFollower) (hm : 0 ≤ r.maxSpeed) :
    (∀ c : Int, fitsInt (r.baseSpeed + c) → fitsInt (r.baseSpeed - c) → 0 < c →
      (runSpeeds r c).2 ≤ (runSpeeds r c).1) ∧
    (∀ c : Int, fitsInt (r.baseSpeed + c) → fitsInt (r.baseSpeed - c) → c < 0 →
      (runSpeeds r c).1 ≤ (runSpeeds r c).2) ∧
    (∀ c1 c2 : Int, fitsInt (r.baseSpeed + c1) → fitsInt (r.baseSpeed - c1) →
      fitsInt (r.baseSpeed + c2) → fitsInt (r.baseSpeed - c2) → c1 ≤ c2 →
      (runSpeeds r c1).1 ≤ (runSpeeds r c2).1 ∧
      (runSpeeds r c2).2 ≤ (runSpeeds r c1).2) := by
  refine ⟨?_, ?_, ?_⟩
  · intro c ha hs hc
    rw [runSpeeds_eq_clamp r c hm ha hs]
    simp only
    omega
  · intro c ha hs hc
    rw [runSpeeds_eq_clamp r c hm ha hs]
    simp only
    omega
  · intro c1 c2 ha1 hs1 ha2 hs2 h
    rw [runSpeeds_eq_clamp r c1 hm ha1 hs1, runSpeeds_eq_clamp r c2 hm ha2 hs2]
    constructor <;> simp only <;> omega

theorem steering_direction_witness :
    (runSpeeds (freshController 5) 100).2 ≤ (runSpeeds (freshController 5) 100).1 ∧
    (runSpeeds (freshController 5) (-250)).1 ≤ (runSpeeds (freshController 5) (-250)).2 ∧
    (runSpeeds (freshController 5) 20).1 ≤ (runSpeeds (freshController 5) 100).1 ∧
    (runSpeeds (freshController 5) 100).2 ≤ (runSpeeds (freshController 5) 20).2 :=
  have h := steering_direction (freshController 5) (by decide)
  have f : ∀ x : Int, -1000 ≤ x → x ≤ 1000 → fitsInt x := by
    intro x h1 h2
    simp only [fitsInt, INT_MIN, INT_MAX]
    omega
  ⟨h.1 100 (f _ (by decide) (by decide)) (f _ (by decide) (by decide)) (by decide),
   h.2.1 (-250) (f _ (by decide) (by decide)) (f _ (by decide) (by decide)) (by decide),
   (h.2.2 20 100 (f _ (by decide) (by decide)) (f _ (by decide) (by decide))
      (f _ (by decide) (by decide)) (f _ (by decide) (by decide)) (by decide)).1,
   (h.2.2 20 100 (f _ (by decide) (by decide)) (f _ (by decide) (by decide))
      (f _ (by decide) (by decide)) (f _ (by decide) (by decide)) (by decide)).2⟩

/-! ## The correction under the default gains -/

theorem calculatePID_default_gains (s : LineFollower) (hKp : s.Kp = 1) (hKi : s.Ki = 0)
    (hKd : s.Kd = 1 / 2) (p : Int) (hp : p ≠ -1)
    (hp1 : -2097152 < p) (hp2 : p < 2097152)
    (hL1 : -2097152 < s.lastError) (hL2 : s.lastError < 2097152) :
    (calculatePID s p).1 = Int.tdiv (3 * p - s.lastError) 2 := by
  rw [calculatePID_tracking s p hp]
  simp only [hKp, hKi, hKd]
  have hband : -1000 ≤ constrain (wrap (s.integral + p)) (-1000) 1000 ∧
      constrain (wrap (s.integral + p)) (-1000) 1000 ≤ 1000 := by
    rw [constrain_eq_clamp _ _ _ (by decide)]
    omega
  have hd : wrap (p - s.lastError) = p - s.lastError :=
    wrap_of_fits _ (by simp only [fitsInt, INT_MIN, INT_MAX]; omega)
  rw [hd, pidCorrection_default p _ (p - s.lastError) hp1 hp2 hband.1 hband.2
    (by omega) (by omega)]
  congr 1
  ring

/-- C18, the claim refuted: a fresh controller (default gains) that has tracked the
position -5 has lastError L = -5; the next call `calculatePID(-2)` computes
1*(-2) + 0*integral + 0.5*(-2 - (-5)) = -0.5 and returns its truncation 0, whereas
p + (p - L) / 2 with the truncating division is -2 + 3 / 2 = -1. -/
theorem default_gains_truncation_differs :
    (calculatePID (freshController 5) (-5)).2.Kp = 1 ∧
    (calculatePID (freshController 5) (-5)).2.Ki = 0 ∧
    (calculatePID (freshController 5) (-5)).2.Kd = 1 / 2 ∧
    (calculatePID (freshController 5) (-5)).2.lastError = -5 ∧
    (calculatePID (calculatePID (freshController 5) (-5)).2 (-2)).1 = 0 ∧
    (-2 : Int) + Int.tdiv (-2 - (calculatePID (freshController 5) (-5)).2.lastError) 2
      = -1 ∧
    (calculatePID (calculatePID (freshController 5) (-5)).2 (-2)).1 ≠
      (-2 : Int) + Int.tdiv (-2 - (calculatePID (freshController 5) (-5)).2.lastError) 2 := by
  have hs : (calculatePID (freshController 5) (-5)).2
      = { freshController 5 with
          lastError := -5,
          integral := constrain (wrap ((freshController 5).integral + -5)) (-1000) 1000 } := by
    rw [calculatePID_tracking _ (-5) (by decide)]
  have hL : (calculatePID (freshController 5) (-5)).2.lastError = -5 := by rw [hs]
  have hKp : (calculatePID (freshController 5) (-5)).2.Kp = 1 := by rw [hs]; rfl
  have hKi : (calculatePID (freshController 5) (-5)).2.Ki = 0 := by rw [hs]; rfl
  have hKd : (calculatePID (freshController 5) (-5)).2.Kd = 1 / 2 := by rw [hs]; rfl
  have hcode : (calculatePID (calculatePID (freshController 5) (-5)).2 (-2)).1 = 0 := by
    rw [calculatePID_default_gains _ hKp hKi hKd (-2) (by decide) (by decide) (by decide)
      (by rw [hL]; decide) (by rw [hL]; decide), hL]
    decide
  have hclaim : (-2 : Int)
      + Int.tdiv (-2 - (calculatePID (freshController 5) (-5)).2.lastError) 2 = -1 := by
    rw [hL]
    decide
  refine ⟨hKp, hKi, hKd, hL, hcode, hclaim, ?_⟩
  rw [hcode, hclaim]
  decide

/-- C18, as amended: with the constructor's default gains (Kp = 1, Ki = 0, Kd = 1/2), for
every position p other than -1 and prior lastError L with |p| < 2^21 and |L| < 2^21 (where
no `float` operation rounds), `calculatePID(p)` returns (3*p - L) / 2 with the division
that truncates toward zero, which is the truncation of the exact value p + (p - L)/2,
whatever the integral is; this equals p + (p - L) / 2 (the division truncating) exactly
when p - L is even or p - L and 3*p - L have the same sign. -/
theorem default_gains_correction (s : LineFollower) (hKp : s.Kp = 1) (hKi : s.Ki = 0)
    (hKd : s.Kd = 1 / 2) (p : Int) (hp : p ≠ -1)
    (hp1 : -2097152 < p) (hp2 : p < 2097152)
    (hL1 : -2097152 < s.lastError) (hL2 : s.lastError < 2097152) :
    (calculatePID s p).1 = Int.tdiv (3 * p - s.lastError) 2 ∧
    (∀ i : Int, (calculatePID { s with integral := i } p).1 = (calculatePID s p).1) ∧
    ((calculatePID s p).1 = p + Int.tdiv (p - s.lastError) 2 ↔
      ((p - s.lastError) % 2 = 0 ∨
       (0 < p - s.lastError ∧ 0 < 3 * p - s.lastError) ∨
       (p - s.lastError < 0 ∧ 3 * p - s.lastError < 0))) := by
  have h := calculatePID_default_gains s hKp hKi hKd p hp hp1 hp2 hL1 hL2
  refine ⟨h, ?_, ?_⟩
  · intro i
    rw [h, calculatePID_default_gains { s with integral := i } hKp hKi hKd p hp hp1 hp2
      hL1 hL2]
  · rw [h, tdiv_two, tdiv_two]
    split_ifs <;> omega

theorem default_gains_correction_witness :
    (calculatePID (freshController 5) 100).1 = 150 ∧
    (calculatePID (freshController 5) 100).1 = 100 + Int.tdiv (100 - 0) 2 ∧
    (calculatePID (freshController 5) 3).1 = 4 :=
  have h := default_gains_correction (freshController 5) rfl rfl rfl 100 (by decide)
    (by decide) (by decide) (by decide) (by decide)
  have h3 := default_gains_correction (freshController 5) rfl rfl rfl 3 (by decide)
    (by decide) (by decide) (by decide) (by decide)
  ⟨h.1.trans (by decide), h.2.2.mpr (Or.inl (by decide)), h3.1.trans (by decide)⟩

end LineFollowerOS
